import Mathlib

/-!
Verification of the MIBOT3 incident extraction-and-deduplication pipeline.

This file shallowly embeds the core functions of the repository
(`botapp/handlers/sicu_full.py`, `botapp/handlers/incidentes.py`,
`botapp/utils/incidentes_csv.py`, `botapp/services/geocoder.py`,
`botapp/services/report_hooks.py`, `botapp/services/incidentes_db.py`)
as executable Lean definitions and proves/refutes the specification claims
about them.

Modeling conventions:
* Python `str` is `String` (a list of unicode scalars, matching Python's
  code-point view).  `str.strip`, `str.lower`, `in` (substring), `int()`
  and `str.split` are embedded as `pyStrip`, `pyLower`, `strContains`,
  `pyInt`, `String.splitOn`.  Lowercasing covers ASCII and Latin-1
  letters (the alphabets occurring in the sources); Python whitespace is
  the unicode whitespace set used by `str.strip`/`re \s`.
* Python dict-based records become structures whose absent/None string
  fields are the empty string (both are falsy under `x or ""`, which is
  how every field access in the sources reads them).
* SQLite state is a list of rows; the network is a function from query
  string to an abstract response; `time.sleep` is recorded in a trace.
* Float arithmetic in `difflib.SequenceMatcher.ratio` is embedded as
  exact rational arithmetic (`ℚ`).
-/

/-! ## Python string primitives -/

/-- Unicode whitespace as recognised by Python's `str.strip`, `str.isspace`
and `re`'s `\s` (for `str` patterns). -/
def pyIsSpace (c : Char) : Bool :=
  let n := c.toNat
  (9 ≤ n && n ≤ 13) || n = 32 || (28 ≤ n && n ≤ 31) || n = 0x85 || n = 0xa0 ||
    n = 0x1680 || (0x2000 ≤ n && n ≤ 0x200a) || n = 0x2028 || n = 0x2029 ||
    n = 0x202f || n = 0x205f || n = 0x3000

/-- Python `str.lower` restricted to ASCII and Latin-1 letters (the only
alphabets appearing in the embedded sources). -/
def pyLowerChar (c : Char) : Char :=
  let n := c.toNat
  if 65 ≤ n && n ≤ 90 then Char.ofNat (n + 32)
  else if 0xC0 ≤ n && n ≤ 0xDE && n ≠ 0xD7 then Char.ofNat (n + 32)
  else c

def pyLowerList (cs : List Char) : List Char := cs.map pyLowerChar

def pyLower (s : String) : String := ⟨pyLowerList s.data⟩

/-- Strip characters satisfying `p` from both ends of a character list. -/
def stripEnds (p : Char → Bool) (cs : List Char) : List Char :=
  ((cs.dropWhile p).reverse.dropWhile p).reverse

/-- Python `str.strip()` (no argument): strip unicode whitespace. -/
def pyStrip (s : String) : String := ⟨stripEnds pyIsSpace s.data⟩

/-- Python `str.strip(chars)`: strip any of the given characters. -/
def pyStripChars (chars : List Char) (s : String) : String :=
  ⟨stripEnds (fun c => chars.contains c) s.data⟩

/-- Python's substring test `needle in hay` on character lists. -/
def containsSub (hay needle : List Char) : Bool :=
  needle.isPrefixOf hay ||
    match hay with
    | [] => false
    | _ :: t => containsSub t needle

/-- Python's substring test `sub in s` on strings. -/
def strContains (s sub : String) : Bool := containsSub s.data sub.data

/-! ## Categorizers

`_classify_categoria` with `CATEGORY_KEYWORDS`
(`botapp/handlers/incidentes.py`) and `_normalize_sicu`
(`botapp/utils/incidentes_csv.py`). -/

/-- `any(k in t for k in kws)`. -/
def anyKw (kws : List String) (t : String) : Bool :=
  kws.any (fun k => strContains t k)

/-- `CATEGORY_KEYWORDS` from `botapp/handlers/incidentes.py`
(order: Terrorismo, Conflicto Armado, Criminalidad, Disturbios Civiles,
Hazards). -/
def CATEGORY_KEYWORDS : List (String × List String) :=
  [ ("Terrorismo",
      ["terrorismo", "terrorist", "ied", "artefacto explosivo improvisado",
       "suicide bomb", "bomba suicida", "car bomb", "explosive device"]),
    ("Conflicto Armado",
      ["enfrentamiento", "combate", "shelling", "artillery", "bombardeo",
       "clashes", "firefight", "ataque aéreo", "airstrike", "misil",
       "drone strike"]),
    ("Criminalidad",
      ["criminal", "delincuencia", "robbery", "asalto", "secuestro",
       "kidnap", "extorsión", "narco", "smuggling", "homicidio", "murder",
       "shooting"]),
    ("Disturbios Civiles",
      ["protesta", "protest", "manifestación", "manifestacion", "riot",
       "huelga", "strike", "bloqueo", "roadblock", "march"]),
    ("Hazards",
      ["inundacion", "inundación", "flood", "tormenta", "storm", "huracán",
       "hurricane", "terremoto", "earthquake", "deslizamiento", "landslide",
       "incendio", "fire"]) ]

/-- `_classify_categoria` (`botapp/handlers/incidentes.py`): empty text is
`"Sin clasificar"`; otherwise the first `CATEGORY_KEYWORDS` pair with a
substring hit in the lowercased text wins, else `"Sin clasificar"`. -/
def classify_categoria (text : String) : String :=
  if text = "" then "Sin clasificar"
  else
    let lowered := pyLower text
    match CATEGORY_KEYWORDS.find? (fun p => anyKw p.2 lowered) with
    | some p => p.1
    | none => "Sin clasificar"

/-- Keyword tuples of `_normalize_sicu` (`botapp/utils/incidentes_csv.py`);
the source tests them in the order Conflicto Armado, Terrorismo,
Criminalidad, Disturbios Civiles, Hazards. -/
def kwSicuConflicto : List String :=
  ["combate", "enfrentamiento", "tiroteo", "disparos", "militar",
   "fuerzas armadas"]

def kwSicuTerrorismo : List String :=
  ["bomba", "explosión", "atentado", "terrorista"]

def kwSicuCriminalidad : List String :=
  ["atraco", "robo", "asesinato", "pandilla", "drogas"]

def kwSicuDisturbios : List String :=
  ["protesta", "manifestación", "disturbios", "huelga"]

def kwSicuHazards : List String :=
  ["inundación", "terremoto", "incendio", "deslizamiento", "tormenta",
   "ciclón"]

/-- `_normalize_sicu` (`botapp/utils/incidentes_csv.py`): nested `if`
chain, Conflicto Armado tested first, fallback `"Otros"`. -/
def normalize_sicu (text_es : String) : String :=
  let t := pyLower text_es
  if anyKw kwSicuConflicto t then "Conflicto Armado"
  else if anyKw kwSicuTerrorismo t then "Terrorismo"
  else if anyKw kwSicuCriminalidad t then "Criminalidad"
  else if anyKw kwSicuDisturbios t then "Disturbios Civiles"
  else if anyKw kwSicuHazards t then "Hazards"
  else "Otros"

/-- A first-match-wins classifier over an ordered (category, keywords)
list, as the spec describes the categorizer. -/
def orderedClassify (pairs : List (String × List String)) (fallback : String)
    (text : String) : String :=
  let t := pyLower text
  match pairs.find? (fun p => anyKw p.2 t) with
  | some p => p.1
  | none => fallback

/-- The SICU keyword pairs in the order the claim asserts (Terrorismo
first, then Conflicto Armado, Criminalidad, Disturbios Civiles, Hazards). -/
def sicuPairsClaimOrder : List (String × List String) :=
  [ ("Terrorismo", kwSicuTerrorismo),
    ("Conflicto Armado", kwSicuConflicto),
    ("Criminalidad", kwSicuCriminalidad),
    ("Disturbios Civiles", kwSicuDisturbios),
    ("Hazards", kwSicuHazards) ]

/-- The SICU keyword pairs in the order the source actually tests them
(Conflicto Armado first). -/
def sicuPairsCodeOrder : List (String × List String) :=
  [ ("Conflicto Armado", kwSicuConflicto),
    ("Terrorismo", kwSicuTerrorismo),
    ("Criminalidad", kwSicuCriminalidad),
    ("Disturbios Civiles", kwSicuDisturbios),
    ("Hazards", kwSicuHazards) ]

/-- Claim C7, counterexample: the claim asserts the categorizer tests
Terrorismo before Conflicto Armado, but `_normalize_sicu` tests Conflicto
Armado first: on "un atentado y un combate" the code answers
"Conflicto Armado" while the claimed order would answer "Terrorismo". -/
theorem c7_counterexample :
    normalize_sicu "un atentado y un combate" = "Conflicto Armado" ∧
    orderedClassify sicuPairsClaimOrder "Otros" "un atentado y un combate" =
      "Terrorismo" ∧
    ¬ (normalize_sicu "un atentado y un combate" =
        orderedClassify sicuPairsClaimOrder "Otros" "un atentado y un combate") := by
  refine ⟨by decide, by decide, by decide⟩

/-- Claim C7 (amended): `_classify_categoria` lower-cases the text and
tests its keyword sets in the fixed order Terrorismo, Conflicto Armado,
Criminalidad, Disturbios Civiles, Hazards, returning the first category
with a substring hit and "Sin clasificar" otherwise; `_normalize_sicu`
behaves the same way but tests Conflicto Armado first (then Terrorismo,
Criminalidad, Disturbios Civiles, Hazards) and falls back to "Otros". -/
theorem c7_amended_ordered_keyword_classifiers :
    (∀ s, classify_categoria s =
        orderedClassify CATEGORY_KEYWORDS "Sin clasificar" s) ∧
    (∀ s, normalize_sicu s = orderedClassify sicuPairsCodeOrder "Otros" s) := by
  constructor
  · intro s
    by_cases h : s = ""
    · subst h; decide
    · simp only [classify_categoria, orderedClassify, if_neg h]
  · intro s
    simp only [normalize_sicu, orderedClassify, sicuPairsCodeOrder, List.find?]
    by_cases h1 : anyKw kwSicuConflicto (pyLower s)
    · simp [h1]
    by_cases h2 : anyKw kwSicuTerrorismo (pyLower s)
    · simp [h1, h2]
    by_cases h3 : anyKw kwSicuCriminalidad (pyLower s)
    · simp [h1, h2, h3]
    by_cases h4 : anyKw kwSicuDisturbios (pyLower s)
    · simp [h1, h2, h3, h4]
    by_cases h5 : anyKw kwSicuHazards (pyLower s)
    · simp [h1, h2, h3, h4, h5]
    · simp [h1, h2, h3, h4, h5]

/-- Claim C8, counterexample: "combate bomba protesta" contains both the
Terrorismo keyword "bomba" and the Disturbios Civiles keyword "protesta",
yet `_normalize_sicu` classifies it as "Conflicto Armado", not
"Terrorismo" (Conflicto Armado is tested first and "combate" matches). -/
theorem c8_counterexample :
    strContains (pyLower "combate bomba protesta") "bomba" = true ∧
    strContains (pyLower "combate bomba protesta") "protesta" = true ∧
    ¬ (normalize_sicu "combate bomba protesta" = "Terrorismo") := by
  refine ⟨by decide, by decide, by decide⟩

/-- Claim C8 (amended): `_normalize_sicu` is a pure function of its text,
and every text containing "bomba" and "protesta" whose lowercased form
contains no Conflicto Armado keyword classifies as Terrorismo. -/
theorem c8_amended_bomba_beats_protesta (s : String)
    (hb : strContains (pyLower s) "bomba" = true)
    (hca : ∀ k ∈ kwSicuConflicto, strContains (pyLower s) k = false) :
    normalize_sicu s = "Terrorismo" := by
  have h1 : anyKw kwSicuConflicto (pyLower s) = false := by
    simp only [anyKw, List.any_eq_false]
    intro k hk
    simp [hca k hk]
  have h2 : anyKw kwSicuTerrorismo (pyLower s) = true := by
    simp only [anyKw, List.any_eq_true]
    exact ⟨"bomba", by simp [kwSicuTerrorismo], hb⟩
  simp only [normalize_sicu, h1, h2]
  simp

/-- Claim C8, witness: "bomba en protesta" satisfies the amended
hypotheses and classifies as Terrorismo. -/
theorem c8_amended_witness :
    strContains (pyLower "bomba en protesta") "bomba" = true ∧
    (∀ k ∈ kwSicuConflicto,
        strContains (pyLower "bomba en protesta") k = false) ∧
    normalize_sicu "bomba en protesta" = "Terrorismo" :=
  ⟨by decide, by decide,
    c8_amended_bomba_beats_protesta "bomba en protesta" (by decide) (by decide)⟩

/-! ## Incident store / batch registrar

`incidente_exists`/`add_incidente` (`botapp/services/incidentes_db.py`) and
`registrar_incidentes_desde_lista` (`botapp/services/report_hooks.py`).
The SQLite `incidentes` table is a list of rows.  The geo columns
(`lat`, `lon`, `admin1`, ...) are omitted: neither the duplicate check nor
the row count reads them, and the post-batch resolver pass
(`resolve_missing_coords`) only mutates those geo columns, never the
`(pais, categoria, descripcion, place)` columns used for deduplication. -/

/-- SQLite `LOWER`: ASCII letters only. -/
def sqlLower (s : String) : String :=
  ⟨s.data.map (fun c =>
    if 65 ≤ c.toNat && c.toNat ≤ 90 then Char.ofNat (c.toNat + 32) else c)⟩

/-- SQLite `TRIM` (one argument): strips the space character only. -/
def sqlTrim (s : String) : String := ⟨stripEnds (fun c => c = ' ') s.data⟩

/-- A stored row of the `incidentes` table (dedup-relevant columns). -/
structure Incidente where
  pais : String
  categoria : String
  descripcion : String
  fuente : String
  place : Option String
  deriving DecidableEq, Repr, Inhabited

/-- Python `a or b` for optional strings: `None` and `""` are falsy. -/
def pyOrOpt (a b : Option String) : Option String :=
  match a with
  | some s => if s = "" then b else some s
  | none => b

/-- Python `a or dflt` where `dflt` is a truthy string. -/
def pyOrStr (a : Option String) (dflt : String) : String :=
  match a with
  | some s => if s = "" then dflt else s
  | none => dflt

/-- The WHERE clause of `incidente_exists`, applied to one row.
`desc` is the already-stripped description parameter and `place_clean`
the stripped candidate place (`""` selects the IS-NULL/empty branch). -/
def incMatches (pais categoria desc place_clean : String) (r : Incidente) :
    Bool :=
  sqlLower r.pais = sqlLower pais && r.categoria = categoria &&
    sqlTrim r.descripcion = desc &&
    (if place_clean = "" then
      match r.place with
      | none => true
      | some p => sqlTrim p = ""
    else sqlTrim (r.place.getD "") = place_clean)

/-- `incidente_exists` (`botapp/services/incidentes_db.py`). -/
def incidente_exists (db : List Incidente) (pais categoria descripcion : String)
    (place : Option String) : Bool :=
  let desc := pyStrip descripcion
  let place_clean := pyStrip (place.getD "")
  db.any (incMatches pais categoria desc place_clean)

/-- An element of the `incidentes` argument of
`registrar_incidentes_desde_lista`: the dict keys the function reads. -/
structure Candidato where
  categoria : Option String
  categoria_sicu : Option String
  descripcion : Option String
  place : Option String
  localizacion : Option String
  fuente : Option String
  Fuente_URL : Option String
  deriving DecidableEq, Repr, Inhabited

/-- The category actually used for a candidate:
`inc.get("categoria") or inc.get("categoria_sicu") or "Otros"`. -/
def catOf (inc : Candidato) : String :=
  pyOrStr (pyOrOpt inc.categoria inc.categoria_sicu) "Otros"

/-- The stripped description of a candidate. -/
def descOf (inc : Candidato) : String := pyStrip (inc.descripcion.getD "")

/-- `inc.get("place") or inc.get("localizacion")`. -/
def placeOf (inc : Candidato) : Option String :=
  pyOrOpt inc.place inc.localizacion

/-- One iteration of the loop in `registrar_incidentes_desde_lista`:
state is (count inserted so far, table). -/
def registrar_step (pais : String) (st : Nat × List Incidente)
    (inc : Candidato) : Nat × List Incidente :=
  if descOf inc = "" then st
  else if incidente_exists st.2 pais (catOf inc) (descOf inc) (placeOf inc)
  then st
  else
    (st.1 + 1,
      st.2 ++ [⟨pais, catOf inc, descOf inc,
        pyOrStr (pyOrOpt inc.fuente inc.Fuente_URL) "Informe Diario",
        placeOf inc⟩])

/-- `registrar_incidentes_desde_lista` (`botapp/services/report_hooks.py`):
returns the number of inserted rows and the final table. -/
def registrar_incidentes_desde_lista (pais : String)
    (incidentes : List Candidato) (db : List Incidente) :
    Nat × List Incidente :=
  incidentes.foldl (registrar_step pais) (0, db)

/-- Number of stored rows matching a candidate's normalized tuple. -/
def countMatching (db : List Incidente) (pais categoria desc place_clean : String) :
    Nat :=
  (db.filter (incMatches pais categoria desc place_clean)).length

/-! Auxiliary facts about end-stripping. -/

theorem dropWhile_head_false {p : Char → Bool} :
    ∀ {l a t}, List.dropWhile p l = a :: t → p a = false := by
  intro l
  induction l with
  | nil => intro a t h; simp [List.dropWhile] at h
  | cons c cs ih =>
    intro a t h
    by_cases hc : p c
    · exact ih (by simpa [List.dropWhile, hc] using h)
    · rw [List.dropWhile_cons_of_neg hc] at h
      cases h
      simpa using hc

theorem dropWhile_eq_self_of_head {p : Char → Bool} {l : List Char}
    (h : ∀ a t, l = a :: t → p a = false) : List.dropWhile p l = l := by
  cases l with
  | nil => rfl
  | cons a t => exact List.dropWhile_cons_of_neg (by simp [h a t rfl])

theorem getLast?_dropWhile {p : Char → Bool} :
    ∀ {l : List Char}, List.dropWhile p l ≠ [] →
      (List.dropWhile p l).getLast? = l.getLast? := by
  intro l
  induction l with
  | nil => intro h; simp [List.dropWhile] at h
  | cons c cs ih =>
    intro h
    by_cases hc : p c
    · rw [List.dropWhile_cons_of_pos hc] at h ⊢
      rw [ih h]
      have hcs : cs ≠ [] := by
        rintro rfl; simp [List.dropWhile] at h
      obtain ⟨x, cs', rfl⟩ := List.exists_cons_of_ne_nil hcs
      exact List.getLast?_cons_cons.symm
    · rw [List.dropWhile_cons_of_neg hc]

/-- Stripping a weaker character class after a stronger one is a no-op. -/
theorem stripEnds_stripEnds {p q : Char → Bool}
    (hpq : ∀ c, p c = true → q c = true) (cs : List Char) :
    stripEnds p (stripEnds q cs) = stripEnds q cs := by
  have hcontra : ∀ a, q a = false → p a = false := by
    intro a ha
    cases hb : p a
    · rfl
    · rw [hpq a hb] at ha; cases ha
  unfold stripEnds
  set D := List.dropWhile q cs with hD
  set E := List.dropWhile q D.reverse with hE
  by_cases hEnil : E = []
  · simp [hEnil, List.dropWhile]
  -- head of E.reverse fails q (it is the head of D), hence fails p
  have hDne : D ≠ [] := by
    rintro hD0
    rw [hE, hD0] at hEnil
    simp [List.dropWhile] at hEnil
  obtain ⟨d, D', hDcons⟩ := List.exists_cons_of_ne_nil hDne
  have hqd : q d = false := dropWhile_head_false (hD.symm.trans hDcons)
  have hlastE : E.getLast? = some d := by
    have hgl := getLast?_dropWhile (l := D.reverse) (by rw [← hE]; exact hEnil)
    rw [← hE] at hgl
    rw [hgl, List.getLast?_reverse, hDcons]
    rfl
  have h1 : List.dropWhile p E.reverse = E.reverse := by
    apply dropWhile_eq_self_of_head
    intro a t h
    have ha : E.reverse.head? = some a := by rw [h]; rfl
    rw [List.head?_reverse, hlastE] at ha
    have had : d = a := by injection ha
    exact hcontra a (had ▸ hqd)
  rw [h1, List.reverse_reverse]
  have h2 : List.dropWhile p E = E := by
    apply dropWhile_eq_self_of_head
    intro a t h
    exact hcontra a (dropWhile_head_false (hE.symm.trans h))
  rw [h2]

/-- SQL-trimming an already Python-stripped string is a no-op. -/
theorem sqlTrim_pyStrip (s : String) : sqlTrim (pyStrip s) = pyStrip s := by
  unfold sqlTrim pyStrip
  congr 1
  exact stripEnds_stripEnds (fun c hc => by
    have hc2 : c = ' ' := by simpa using hc
    subst hc2; decide) s.data

/-- Python-stripping is idempotent. -/
theorem pyStrip_pyStrip (s : String) : pyStrip (pyStrip s) = pyStrip s := by
  unfold pyStrip
  congr 1
  exact stripEnds_stripEnds (fun c hc => hc) s.data

/-- The stripped place string used by the duplicate check. -/
def pcOf (inc : Candidato) : String := pyStrip ((placeOf inc).getD "")

/-- The candidate's place has only spaces (no tabs/newlines/etc.) as
leading/trailing whitespace, so SQL TRIM and Python strip agree on it. -/
def placeSpacesOnly (inc : Candidato) : Bool :=
  match placeOf inc with
  | none => true
  | some p => sqlTrim p = pyStrip p

/-- The row inserted for a candidate by `registrar_incidentes_desde_lista`. -/
def rStar (pais : String) (inc : Candidato) : Incidente :=
  ⟨pais, catOf inc, descOf inc,
    pyOrStr (pyOrOpt inc.fuente inc.Fuente_URL) "Informe Diario", placeOf inc⟩

/-- `incidente_exists` on a candidate's fields is `any` of `incMatches`
over the table. -/
theorem exists_eq_any (db : List Incidente) (pais : String) (inc : Candidato) :
    incidente_exists db pais (catOf inc) (descOf inc) (placeOf inc) =
      db.any (incMatches pais (catOf inc) (descOf inc) (pcOf inc)) := by
  simp only [incidente_exists]
  rw [show pyStrip (descOf inc) = descOf inc from by
    rw [descOf, pyStrip_pyStrip]]
  rfl

/-- `incMatches` only reads the batch country through `sqlLower`. -/
theorem incMatches_pais_congr {pais pais2 : String}
    (h : sqlLower pais2 = sqlLower pais) (c d pc : String) (r : Incidente) :
    incMatches pais2 c d pc r = incMatches pais c d pc r := by
  simp only [incMatches, h]

/-- The inserted row matches its own candidate's normalized tuple (needs
the space-only condition on the place ends). -/
theorem rStar_self_match (pais : String) (inc : Candidato)
    (hplace : placeSpacesOnly inc = true) :
    incMatches pais (catOf inc) (descOf inc) (pcOf inc) (rStar pais inc) =
      true := by
  have hdesc : sqlTrim (descOf inc) = descOf inc := by
    rw [descOf, sqlTrim_pyStrip]
  simp only [incMatches, rStar, Bool.and_eq_true, decide_eq_true_eq]
  refine ⟨⟨⟨by trivial, by trivial⟩, hdesc⟩, ?_⟩
  simp only [placeSpacesOnly] at hplace
  simp only [pcOf]
  have key : ∀ o : Option String,
      (match o with
        | none => true
        | some p => decide (sqlTrim p = pyStrip p)) = true →
      (if pyStrip (o.getD "") = "" then
          match o with
          | none => true
          | some p => decide (sqlTrim p = "")
        else decide (sqlTrim (o.getD "") = pyStrip (o.getD ""))) = true := by
    intro o ho
    cases o with
    | none => decide
    | some p =>
      have hsp : sqlTrim p = pyStrip p := by simpa using ho
      simp only [Option.getD_some]
      by_cases hempty : pyStrip p = ""
      · rw [if_pos hempty]
        simp [hsp, hempty]
      · rw [if_neg hempty]
        simp [hsp]
  exact key (placeOf inc) hplace

theorem countMatching_append (db : List Incidente) (r : Incidente)
    (pais c d pc : String) :
    countMatching (db ++ [r]) pais c d pc =
      countMatching db pais c d pc +
        (if incMatches pais c d pc r then 1 else 0) := by
  simp only [countMatching, List.filter_append, List.length_append]
  by_cases h : incMatches pais c d pc r <;> simp [h]

theorem countMatching_pos {db : List Incidente} {pais c d pc : String}
    (h : db.any (incMatches pais c d pc) = true) :
    0 < countMatching db pais c d pc := by
  obtain ⟨r, hr, hm⟩ := List.any_eq_true.mp h
  simp only [countMatching, List.length_pos]
  intro hnil
  have : r ∈ db.filter (incMatches pais c d pc) := List.mem_filter.mpr ⟨hr, hm⟩
  rw [hnil] at this
  cases this

theorem countMatching_eq_zero {db : List Incidente} {pais c d pc : String}
    (h : db.any (incMatches pais c d pc) = false) :
    countMatching db pais c d pc = 0 := by
  simp only [countMatching, List.length_eq_zero]
  rw [List.filter_eq_nil_iff]
  intro r hr
  rw [List.any_eq_false] at h
  simp [h r hr]

/-- Step behavior: duplicate present (skip). -/
theorem registrar_step_skip (pais : String) (st : Nat × List Incidente)
    (inc : Candidato) (hdesc : descOf inc ≠ "")
    (hex : st.2.any (incMatches pais (catOf inc) (descOf inc) (pcOf inc)) =
      true) :
    registrar_step pais st inc = st := by
  simp only [registrar_step, if_neg hdesc, exists_eq_any, hex, if_pos]

/-- Step behavior: no duplicate (insert `rStar`). -/
theorem registrar_step_insert (pais : String) (st : Nat × List Incidente)
    (inc : Candidato) (hdesc : descOf inc ≠ "")
    (hex : st.2.any (incMatches pais (catOf inc) (descOf inc) (pcOf inc)) =
      false) :
    registrar_step pais st inc = (st.1 + 1, st.2 ++ [rStar pais inc]) := by
  simp only [registrar_step, if_neg hdesc, exists_eq_any, hex]
  rfl

/-- Claim C5, counterexample: a candidate whose place is "\tX" (tab at the
front) is inserted twice by one batch: the SQL duplicate check compares
`TRIM(place)` (spaces only) against the Python-stripped candidate place,
so the stored "\tX" never matches the lookup value "X". -/
theorem c5_counterexample :
    (registrar_incidentes_desde_lista "Libia"
        [⟨none, none, some "d", some "\tX", none, none, none⟩,
         ⟨none, none, some "d", some "\tX", none, none, none⟩] []).2.length =
      2 ∧
    (registrar_incidentes_desde_lista "Libia"
        [⟨none, none, some "d", some "\tX", none, none, none⟩,
         ⟨none, none, some "d", some "\tX", none, none, none⟩] []).1 = 2 := by
  refine ⟨by decide, by decide⟩

/-- Claim C5 (amended): registering the same candidate twice — within one
batch or across two batches whose country differs at most in ASCII case —
leaves exactly one stored record matching its normalized tuple
(lower(pais), categoria, stripped descripcion, stripped place), provided
the candidate's place carries only plain spaces as leading/trailing
whitespace (SQLite TRIM removes only spaces, Python strip removes all
whitespace, so e.g. a tab-prefixed place defeats the duplicate check —
see the counterexample). -/
theorem c5_amended_register_twice_once_stored (inc : Candidato)
    (pais pais2 : String) (db : List Incidente)
    (hdesc : descOf inc ≠ "") (hplace : placeSpacesOnly inc = true)
    (hpais : sqlLower pais2 = sqlLower pais) :
    countMatching
        (registrar_incidentes_desde_lista pais [inc, inc] db).2
        pais (catOf inc) (descOf inc) (pcOf inc) =
      max (countMatching db pais (catOf inc) (descOf inc) (pcOf inc)) 1 ∧
    countMatching
        (registrar_incidentes_desde_lista pais2 [inc]
          (registrar_incidentes_desde_lista pais [inc] db).2).2
        pais (catOf inc) (descOf inc) (pcOf inc) =
      max (countMatching db pais (catOf inc) (descOf inc) (pcOf inc)) 1 := by
  have hrfl1 : registrar_incidentes_desde_lista pais [inc, inc] db =
      registrar_step pais (registrar_step pais (0, db) inc) inc := rfl
  have hrfl2 : registrar_incidentes_desde_lista pais [inc] db =
      registrar_step pais (0, db) inc := rfl
  cases hex : db.any (incMatches pais (catOf inc) (descOf inc) (pcOf inc)) with
  | true =>
    have hstep : registrar_step pais (0, db) inc = (0, db) :=
      registrar_step_skip pais (0, db) inc hdesc hex
    have hcount := countMatching_pos hex
    have hmax :
        max (countMatching db pais (catOf inc) (descOf inc) (pcOf inc)) 1 =
          countMatching db pais (catOf inc) (descOf inc) (pcOf inc) := by
      omega
    constructor
    · rw [hrfl1, hstep, hstep, hmax]
    · have hex2 : db.any
          (incMatches pais2 (catOf inc) (descOf inc) (pcOf inc)) = true := by
        rw [show (incMatches pais2 (catOf inc) (descOf inc) (pcOf inc)) =
            (incMatches pais (catOf inc) (descOf inc) (pcOf inc)) from
          funext (incMatches_pais_congr hpais _ _ _)]
        exact hex
      have hstep2 : registrar_step pais2 (0, db) inc = (0, db) :=
        registrar_step_skip pais2 (0, db) inc hdesc hex2
      show countMatching (registrar_step pais2
          (0, (registrar_step pais (0, db) inc).2) inc).2 pais _ _ _ = _
      rw [hstep]
      rw [hstep2, hmax]
  | false =>
    have hstep : registrar_step pais (0, db) inc =
        (1, db ++ [rStar pais inc]) :=
      registrar_step_insert pais (0, db) inc hdesc hex
    have hmatch := rStar_self_match pais inc hplace
    have hany2 : (db ++ [rStar pais inc]).any
        (incMatches pais (catOf inc) (descOf inc) (pcOf inc)) = true := by
      rw [List.any_append]
      simp [hmatch]
    have hcount0 := countMatching_eq_zero hex
    have hcount1 : countMatching (db ++ [rStar pais inc])
        pais (catOf inc) (descOf inc) (pcOf inc) = 1 := by
      rw [countMatching_append, hcount0, if_pos hmatch]
    constructor
    · rw [hrfl1, hstep]
      have hstep2 : registrar_step pais (1, db ++ [rStar pais inc]) inc =
          (1, db ++ [rStar pais inc]) :=
        registrar_step_skip pais _ inc hdesc hany2
      rw [hstep2]
      rw [hcount1, hcount0]
      decide
    · have hany2b : (db ++ [rStar pais inc]).any
          (incMatches pais2 (catOf inc) (descOf inc) (pcOf inc)) = true := by
        rw [show (incMatches pais2 (catOf inc) (descOf inc) (pcOf inc)) =
            (incMatches pais (catOf inc) (descOf inc) (pcOf inc)) from
          funext (incMatches_pais_congr hpais _ _ _)]
        exact hany2
      show countMatching (registrar_step pais2
          (0, (registrar_step pais (0, db) inc).2) inc).2 pais _ _ _ = _
      rw [hstep]
      have hstep2 : registrar_step pais2 (0, db ++ [rStar pais inc]) inc =
          (0, db ++ [rStar pais inc]) :=
        registrar_step_skip pais2 _ inc hdesc hany2b
      rw [hstep2]
      rw [hcount1, hcount0]
      decide

/-- Claim C5, witness: a concrete candidate registered in two batches
("Libia" then "LIBIA") over an empty table ends with exactly one matching
record. -/
theorem c5_amended_witness :
    descOf ⟨none, none, some " desc ", some " Tripoli ", none, none, none⟩ ≠
      "" ∧
    placeSpacesOnly
        ⟨none, none, some " desc ", some " Tripoli ", none, none, none⟩ =
      true ∧
    sqlLower "LIBIA" = sqlLower "Libia" ∧
    countMatching
        (registrar_incidentes_desde_lista "LIBIA"
          [⟨none, none, some " desc ", some " Tripoli ", none, none, none⟩]
          (registrar_incidentes_desde_lista "Libia"
            [⟨none, none, some " desc ", some " Tripoli ", none, none,
              none⟩] []).2).2
        "Libia"
        (catOf ⟨none, none, some " desc ", some " Tripoli ", none, none,
          none⟩)
        (descOf ⟨none, none, some " desc ", some " Tripoli ", none, none,
          none⟩)
        (pcOf ⟨none, none, some " desc ", some " Tripoli ", none, none,
          none⟩) =
      max (countMatching []
        "Libia"
        (catOf ⟨none, none, some " desc ", some " Tripoli ", none, none,
          none⟩)
        (descOf ⟨none, none, some " desc ", some " Tripoli ", none, none,
          none⟩)
        (pcOf ⟨none, none, some " desc ", some " Tripoli ", none, none,
          none⟩)) 1 :=
  ⟨by decide, by decide, by decide,
    (c5_amended_register_twice_once_stored
      ⟨none, none, some " desc ", some " Tripoli ", none, none, none⟩
      "Libia" "LIBIA" [] (by decide) (by decide) (by decide)).2⟩

/-- One registrar step keeps `table growth = count growth`. -/
theorem registrar_step_len (pais : String) (st : Nat × List Incidente)
    (inc : Candidato) :
    (registrar_step pais st inc).2.length + st.1 =
      (registrar_step pais st inc).1 + st.2.length := by
  unfold registrar_step
  by_cases h1 : descOf inc = ""
  · rw [if_pos h1]; omega
  · rw [if_neg h1]
    by_cases h2 :
        incidente_exists st.2 pais (catOf inc) (descOf inc) (placeOf inc) =
          true
    · rw [if_pos h2]; omega
    · rw [if_neg h2]
      simp only [List.length_append, List.length_cons, List.length_nil]
      omega

theorem registrar_fold_len (pais : String) :
    ∀ (incs : List Candidato) (n : Nat) (db : List Incidente),
      (incs.foldl (registrar_step pais) (n, db)).2.length + n =
        (incs.foldl (registrar_step pais) (n, db)).1 + db.length := by
  intro incs
  induction incs with
  | nil => intro n db; simp only [List.foldl_nil]; omega
  | cons inc rest ih =>
    intro n db
    simp only [List.foldl_cons]
    rcases hst : registrar_step pais (n, db) inc with ⟨n2, db2⟩
    have hstep : db2.length + n = n2 + db.length := by
      have h0 := registrar_step_len pais (n, db) inc
      rw [hst] at h0
      exact h0
    have hrest := ih n2 db2
    omega

/-- A registrar step on an empty-description candidate is a no-op. -/
theorem registrar_step_empty_desc (pais : String) (st : Nat × List Incidente)
    (inc : Candidato) (h : descOf inc = "") :
    registrar_step pais st inc = st := by
  simp [registrar_step, h]

/-- Claim C10: the batch registrar (a) returns a count equal to the number
of rows it actually appended to the table, and (b) silently drops any
candidate whose description strips to empty — removing such a candidate
from the batch changes neither the count nor the table. -/
theorem c10_count_and_empty_skip :
    (∀ (pais : String) (incs : List Candidato) (db : List Incidente),
      (registrar_incidentes_desde_lista pais incs db).2.length =
        db.length + (registrar_incidentes_desde_lista pais incs db).1) ∧
    (∀ (pais : String) (inc : Candidato) (l1 l2 : List Candidato)
        (db : List Incidente), descOf inc = "" →
      registrar_incidentes_desde_lista pais (l1 ++ inc :: l2) db =
        registrar_incidentes_desde_lista pais (l1 ++ l2) db) := by
  constructor
  · intro pais incs db
    have h := registrar_fold_len pais incs 0 db
    simp only [registrar_incidentes_desde_lista]
    omega
  · intro pais inc l1 l2 db h
    simp only [registrar_incidentes_desde_lista, List.foldl_append,
      List.foldl_cons]
    rw [registrar_step_empty_desc pais _ inc h]

/-- Claim C10, witness: a whitespace-only description candidate in the
middle of a batch is neither stored nor counted, and the count matches the
table growth. -/
theorem c10_witness :
    descOf ⟨none, none, some "  ", none, none, none, none⟩ = "" ∧
    registrar_incidentes_desde_lista "Libia"
        [⟨none, none, some "a", none, none, none, none⟩,
         ⟨none, none, some "  ", none, none, none, none⟩,
         ⟨none, none, some "b", none, none, none, none⟩] [] =
      registrar_incidentes_desde_lista "Libia"
        [⟨none, none, some "a", none, none, none, none⟩,
         ⟨none, none, some "b", none, none, none, none⟩] [] ∧
    (registrar_incidentes_desde_lista "Libia"
        [⟨none, none, some "a", none, none, none, none⟩,
         ⟨none, none, some "  ", none, none, none, none⟩,
         ⟨none, none, some "b", none, none, none, none⟩] []).2.length =
      ([] : List Incidente).length +
        (registrar_incidentes_desde_lista "Libia"
          [⟨none, none, some "a", none, none, none, none⟩,
           ⟨none, none, some "  ", none, none, none, none⟩,
           ⟨none, none, some "b", none, none, none, none⟩] []).1 :=
  ⟨by decide,
    c10_count_and_empty_skip.2 "Libia"
      ⟨none, none, some "  ", none, none, none, none⟩
      [⟨none, none, some "a", none, none, none, none⟩]
      [⟨none, none, some "b", none, none, none, none⟩] [] (by decide),
    c10_count_and_empty_skip.1 "Libia"
      [⟨none, none, some "a", none, none, none, none⟩,
       ⟨none, none, some "  ", none, none, none, none⟩,
       ⟨none, none, some "b", none, none, none, none⟩] []⟩

/-! ## Feed-mode entry parser

`HEADER_RE` and `_parse_txt_news` (`botapp/utils/incidentes_csv.py`).
The file is read and split into lines upstream (`read_text` +
`splitlines`); the embedding works on the resulting line list.
`HEADER_RE` is
`^---\s+(?P<channel>.+?)\s+@\s+(?P<dt>\d{4}-\d{2}-\d{2}\s+\d{2}:\d{2}:\d{2})\s+---\s*$`;
it is embedded by a direct search that mirrors the Python engine's
backtracking order: the leading greedy `\s+` tries the longest whitespace
run first, the lazy channel group grows from one character, and everything
after the channel is deterministic (each later `\s+` is followed by a
character that can never be whitespace, so only the maximal run can
succeed). -/

/-- `re \d` (ASCII digits; the feeds are ASCII-dated). -/
def pyIsDigit (c : Char) : Bool := 48 ≤ c.toNat && c.toNat ≤ 57

/-- Take exactly `n` digits. -/
def takeDigits (n : Nat) (cs : List Char) :
    Option (List Char × List Char) :=
  let d := cs.take n
  if d.length = n && d.all pyIsDigit then some (d, cs.drop n) else none

/-- Match `\d{4}-\d{2}-\d{2}\s+\d{2}:\d{2}:\d{2}\s+---\s*$` and return the
raw text of the `dt` group. -/
def matchDatetime (cs : List Char) : Option String :=
  match takeDigits 4 cs with
  | none => none
  | some (y, cs1) =>
    match cs1 with
    | '-' :: cs2 =>
      match takeDigits 2 cs2 with
      | none => none
      | some (mo, cs3) =>
        match cs3 with
        | '-' :: cs4 =>
          match takeDigits 2 cs4 with
          | none => none
          | some (dd, cs5) =>
            let w := cs5.takeWhile pyIsSpace
            if w.isEmpty then none
            else
              match takeDigits 2 (cs5.drop w.length) with
              | none => none
              | some (hh, cs6) =>
                match cs6 with
                | ':' :: cs7 =>
                  match takeDigits 2 cs7 with
                  | none => none
                  | some (mi, cs8) =>
                    match cs8 with
                    | ':' :: cs9 =>
                      match takeDigits 2 cs9 with
                      | none => none
                      | some (se, cs10) =>
                        let w3 := cs10.takeWhile pyIsSpace
                        if w3.isEmpty then none
                        else
                          match cs10.drop w3.length with
                          | '-' :: '-' :: '-' :: cs11 =>
                            if cs11.all pyIsSpace then
                              some ⟨y ++ ['-'] ++ mo ++ ['-'] ++ dd ++ w ++
                                hh ++ [':'] ++ mi ++ [':'] ++ se⟩
                            else none
                          | _ => none
                    | _ => none
                | _ => none
        | _ => none
    | _ => none

/-- Match `\s+@\s+` followed by the datetime part. -/
def matchAfterChannel (cs : List Char) : Option String :=
  let w1 := cs.takeWhile pyIsSpace
  if w1.isEmpty then none
  else
    match cs.drop w1.length with
    | '@' :: cs2 =>
      let w2 := cs2.takeWhile pyIsSpace
      if w2.isEmpty then none
      else matchDatetime (cs2.drop w2.length)
    | _ => none

/-- `HEADER_RE.match(line)`: returns the (raw) channel and dt groups. -/
def headerMatch (line : String) : Option (String × String) :=
  match line.data with
  | '-' :: '-' :: '-' :: rest =>
    let m := (rest.takeWhile pyIsSpace).length
    if m = 0 then none
    else
      (List.range m).findSome? (fun i =>
        let tl := rest.drop (m - i)
        (List.range tl.length).findSome? (fun j =>
          let chan := tl.take (j + 1)
          if chan.all (fun c => c ≠ '\n') then
            match matchAfterChannel (tl.drop (j + 1)) with
            | some dt => some ((⟨chan⟩ : String), dt)
            | none => none
          else none))
  | _ => none

/-- One parsed feed entry. -/
structure Entry where
  channel : String
  dt : String
  body : String
  deriving DecidableEq, Repr, Inhabited

/-- Python `"\n".join`. -/
def joinNL : List String → String
  | [] => ""
  | [s] => s
  | s :: rest => s ++ "\n" ++ joinNL rest

/-- The entry flushed by `_parse_txt_news`: groups are stripped at header
time, the body is the newline-join of the accumulated lines, stripped. -/
def mkEntry (hd : String × String) (body : List String) : Entry :=
  ⟨pyStrip hd.1, pyStrip hd.2, pyStrip (joinNL body)⟩

/-- The accumulator loop of `_parse_txt_news`: `cur` is the open entry's
(channel, dt), `acc` its body lines so far. -/
def feedLoop : Option (String × String) → List String → List String →
    List Entry
  | cur, acc, [] =>
    match cur with
    | some hd => [mkEntry hd acc]
    | none => []
  | cur, acc, l :: ls =>
    match headerMatch l with
    | some hd2 =>
      (match cur with
        | some hd => [mkEntry hd acc]
        | none => []) ++ feedLoop (some hd2) [] ls
    | none =>
      match cur with
      | some hd => feedLoop (some hd) (acc ++ [l]) ls
      | none => feedLoop none acc ls

/-- `_parse_txt_news` on the line list of the input text. -/
def parse_txt_news (lines : List String) : List Entry :=
  feedLoop none [] lines

/-- A line that is not an entry header. -/
def noHdr (l : String) : Bool := (headerMatch l).isNone

theorem length_dropWhile_le {α : Type} (p : α → Bool) (l : List α) :
    (l.dropWhile p).length ≤ l.length := by
  induction l with
  | nil => exact Nat.le_refl _
  | cons a t ih =>
    by_cases h : p a
    · rw [List.dropWhile_cons_of_pos h]
      exact Nat.le_trans ih (Nat.le_succ _)
    · rw [List.dropWhile_cons_of_neg h]

/-- The spec's view of the feed: one segment per header line, carrying the
lines strictly between that header and the next header (or end of input);
lines before the first header are dropped. -/
def splitAtHeaders : List String → List ((String × String) × List String)
  | [] => []
  | l :: ls =>
    match headerMatch l with
    | some hd =>
      (hd, ls.takeWhile noHdr) :: splitAtHeaders (ls.dropWhile noHdr)
    | none => splitAtHeaders ls
termination_by l => l.length
decreasing_by
  · simp only [List.length_cons]
    exact Nat.lt_succ_of_le (length_dropWhile_le noHdr ls)
  · simp only [List.length_cons]
    exact Nat.lt_succ_self _

/-- The claim's construction of the entry list, parameterized by how a
segment's body lines become the body string (`joinNL` for the claim as
stated, `pyStrip ∘ joinNL` for the amended claim). -/
def claimedFeedWith (post : List String → String) (lines : List String) :
    List Entry :=
  (splitAtHeaders lines).map
    (fun e => ⟨pyStrip e.1.1, pyStrip e.1.2, post e.2⟩)

theorem splitAtHeaders_nil : splitAtHeaders [] = [] := by
  simp [splitAtHeaders]

theorem splitAtHeaders_cons_some {l : String} {ls : List String}
    {hd : String × String} (h : headerMatch l = some hd) :
    splitAtHeaders (l :: ls) =
      (hd, ls.takeWhile noHdr) :: splitAtHeaders (ls.dropWhile noHdr) := by
  rw [splitAtHeaders, h]

theorem splitAtHeaders_cons_none {l : String} {ls : List String}
    (h : headerMatch l = none) :
    splitAtHeaders (l :: ls) = splitAtHeaders ls := by
  rw [splitAtHeaders, h]

/-- Once an entry is open, the loop accumulates exactly the lines up to
the next header, flushes, and restarts on the remainder. -/
theorem feedLoop_some (ls : List String) :
    ∀ (hd : String × String) (acc : List String),
      feedLoop (some hd) acc ls =
        mkEntry hd (acc ++ ls.takeWhile noHdr) ::
          feedLoop none [] (ls.dropWhile noHdr) := by
  induction ls with
  | nil =>
    intro hd acc
    simp [feedLoop, List.takeWhile, List.dropWhile]
  | cons l ls ih =>
    intro hd acc
    cases hm : headerMatch l with
    | some hd2 =>
      have hno : noHdr l = false := by simp [noHdr, hm]
      rw [show feedLoop (some hd) acc (l :: ls) =
          [mkEntry hd acc] ++ feedLoop (some hd2) [] ls from by
        simp [feedLoop, hm]]
      rw [List.takeWhile_cons_of_neg (by simp [hno]),
        List.dropWhile_cons_of_neg (by simp [hno])]
      rw [show feedLoop none [] (l :: ls) =
          [] ++ feedLoop (some hd2) [] ls from by simp [feedLoop, hm]]
      simp
    | none =>
      have hno : noHdr l = true := by simp [noHdr, hm]
      rw [show feedLoop (some hd) acc (l :: ls) =
          feedLoop (some hd) (acc ++ [l]) ls from by simp [feedLoop, hm]]
      rw [ih hd (acc ++ [l])]
      rw [List.takeWhile_cons_of_pos hno, List.dropWhile_cons_of_pos hno]
      simp

/-- Claim C6 (amended), core: the parser equals the spec construction with
stripped bodies. -/
theorem feedLoop_none_eq (n : Nat) :
    ∀ lines : List String, lines.length ≤ n →
      feedLoop none [] lines =
        claimedFeedWith (fun b => pyStrip (joinNL b)) lines := by
  induction n with
  | zero =>
    intro lines hlen
    have : lines = [] := List.length_eq_zero.mp (Nat.le_zero.mp hlen)
    subst this
    simp [feedLoop, claimedFeedWith, splitAtHeaders_nil]
  | succ n ih =>
    intro lines hlen
    cases lines with
    | nil => simp [feedLoop, claimedFeedWith, splitAtHeaders_nil]
    | cons l ls =>
      cases hm : headerMatch l with
      | none =>
        rw [show feedLoop none [] (l :: ls) = feedLoop none [] ls from by
          simp [feedLoop, hm]]
        rw [ih ls (by simpa using Nat.le_of_succ_le_succ hlen)]
        simp [claimedFeedWith, splitAtHeaders_cons_none hm]
      | some hd =>
        rw [show feedLoop none [] (l :: ls) =
            [] ++ feedLoop (some hd) [] ls from by simp [feedLoop, hm]]
        rw [feedLoop_some ls hd []]
        have hdrop : (ls.dropWhile noHdr).length ≤ n := by
          have h1 := length_dropWhile_le noHdr ls
          have h2 : ls.length ≤ n := by simpa using Nat.le_of_succ_le_succ hlen
          omega
        rw [ih (ls.dropWhile noHdr) hdrop]
        simp [claimedFeedWith, splitAtHeaders_cons_some hm, mkEntry]

/-- Claim C6 (amended): for every line list, the feed parser produces one
entry per header line, in order, whose channel/dt are the stripped header
groups and whose body is the newline-join of the lines strictly between
that header and the next header (or end of input), stripped of leading and
trailing whitespace; lines before the first header are dropped. -/
theorem c6_amended_feed_shape (lines : List String) :
    parse_txt_news lines =
      claimedFeedWith (fun b => pyStrip (joinNL b)) lines :=
  feedLoop_none_eq lines.length lines (Nat.le_refl _)

/-- Claim C6, counterexample: the body is NOT exactly the lines between
headers — it is stripped.  With body lines ["a", ""] the joined text is
"a\n" but the parser returns "a". -/
theorem c6_counterexample :
    parse_txt_news ["--- c @ 2024-01-01 10:00:00 ---", "a", ""] =
      [⟨"c", "2024-01-01 10:00:00", "a"⟩] ∧
    claimedFeedWith joinNL ["--- c @ 2024-01-01 10:00:00 ---", "a", ""] =
      [⟨"c", "2024-01-01 10:00:00", "a\n"⟩] ∧
    ¬ (parse_txt_news ["--- c @ 2024-01-01 10:00:00 ---", "a", ""] =
        claimedFeedWith joinNL
          ["--- c @ 2024-01-01 10:00:00 ---", "a", ""]) := by
  have h1 : headerMatch "--- c @ 2024-01-01 10:00:00 ---" =
      some ("c", "2024-01-01 10:00:00") := by decide
  have hA : parse_txt_news ["--- c @ 2024-01-01 10:00:00 ---", "a", ""] =
      [⟨"c", "2024-01-01 10:00:00", "a"⟩] := by decide
  have hB : claimedFeedWith joinNL
      ["--- c @ 2024-01-01 10:00:00 ---", "a", ""] =
      [⟨"c", "2024-01-01 10:00:00", "a\n"⟩] := by
    simp only [claimedFeedWith]
    rw [splitAtHeaders_cons_some h1,
      show List.takeWhile noHdr ["a", ""] = ["a", ""] from by decide,
      show List.dropWhile noHdr ["a", ""] = [] from by decide,
      splitAtHeaders_nil]
    decide
  refine ⟨hA, hB, ?_⟩
  rw [hA, hB]
  decide

/-- Claim C6 (amended), witness-style instance: the entry count equals the
header count and preamble lines are dropped on a concrete feed. -/
theorem c6_amended_example :
    parse_txt_news
        ["preamble", "--- ch @ 2025-01-05 10:00:00 ---", "Ataque", "x",
         "--- ch2 @ 2025-01-05 11:00:00 ---"] =
      [⟨"ch", "2025-01-05 10:00:00", "Ataque\nx"⟩,
       ⟨"ch2", "2025-01-05 11:00:00", ""⟩] := by
  decide

/-! ## Geocoder (`botapp/services/geocoder.py`)

`_sanitize_place`, `_iter_alt_tokens`, `_build_queries`, `_cache_key`,
`_canonical_country` and `geocode_place`.  The regex substitutions are
embedded as direct scanners that reproduce the Python engine's behavior:
alternatives are tried in source order at each position, `\b` requires a
word/non-word transition, matching is case-insensitive, and scanning
resumes after each match.  Network I/O is a function from query string to
an abstract response; `time.sleep` durations are recorded in a trace
in milliseconds (1050 before every request, 5000 after HTTP 429/503). -/

/-- `re \w` for the alphabets in play: ASCII alphanumerics, underscore,
and non-ASCII characters that are neither whitespace nor one of the
punctuation marks appearing in the feeds. -/
def isWordChar (c : Char) : Bool :=
  let n := c.toNat
  (48 ≤ n && n ≤ 57) || (65 ≤ n && n ≤ 90) || (97 ≤ n && n ≤ 122) ||
    n = 95 ||
    (128 ≤ n && !(pyIsSpace c) &&
      !([0xab, 0xbb, 0xa1, 0xbf, 0x2022, 0x25cf, 0x2013, 0x2014].contains n))

/-- First alternative of the list matching (case-insensitively) at the
start of `cs` with a word boundary after it.  Mirrors the regex engine:
alternatives are tried in source order; the first whose literal text and
trailing `\b` both succeed wins. -/
def findAlt (alts : List (List Char)) (cs : List Char) : Option (List Char) :=
  alts.find? (fun alt =>
    pyLowerList (cs.take alt.length) = alt &&
      (match cs.drop alt.length with
        | [] => true
        | c :: _ => !isWordChar c))

/-- `re.sub(pattern, "", s)` for a `\b(?:alt|...)\b` alternation, scanning
left to right.  `prevW` tracks whether the previous character of the
input was a word character (all alternatives start and end with word
characters, so a match can only begin after a non-word character or at the
start, and after a match the previous character is a word character).
`fuel ≥ cs.length` keeps the recursion structural; each step consumes at
least one character. -/
def subPhrasesAux (alts : List (List Char)) :
    Nat → Bool → List Char → List Char
  | 0, _, cs => cs
  | _ + 1, _, [] => []
  | fuel + 1, prevW, c :: rest =>
    if prevW then c :: subPhrasesAux alts fuel (isWordChar c) rest
    else
      match findAlt alts (c :: rest) with
      | some alt => subPhrasesAux alts fuel true (rest.drop (alt.length - 1))
      | none => c :: subPhrasesAux alts fuel (isWordChar c) rest

def subPhrases (alts : List String) (cs : List Char) : List Char :=
  subPhrasesAux (alts.map String.data) cs.length false cs

/-- `_WS_RE.sub(" ", s)`: collapse whitespace runs to one space. -/
def wsCollapseAux : Bool → List Char → List Char
  | _, [] => []
  | inRun, c :: rest =>
    if pyIsSpace c then
      (if inRun then [] else [' ']) ++ wsCollapseAux true rest
    else c :: wsCollapseAux false rest

def wsCollapse (cs : List Char) : List Char := wsCollapseAux false cs

/-- `_DIRECTION_RE` alternatives, in source order. -/
def DIRECTION_ALTS : List String :=
  ["al", "a la", "a los", "a las", "towards", "north of", "south of",
   "east of", "west of", "noreste de", "noroeste de", "norte de", "sur de",
   "este de", "oeste de", "noreste", "noroeste", "sureste", "suroeste"]

/-- `_NEAR_RE` alternatives, in source order; character classes
`[ií]`/`[oó]` are expanded in place (at any given position at most one
expansion can match, so their relative order is immaterial). -/
def NEAR_ALTS : List String :=
  ["cerca de", "en las cercanias de", "en las cercanías de",
   "en las proximidades de", "proximo a", "próximo a", "alrededor de",
   "near", "around", "adjacent to", "junto a", "junto al", "junto a la"]

/-- `_TRAILING_QUALIFIERS_RE` words. -/
def QUALIFIER_WORDS : List String :=
  ["city", "ciudad", "province", "provincia", "state", "estado", "region",
   "región", "district", "distrito", "governorate"]

/-- Does a qualifier word followed by an optional dot span exactly the
rest of the string? -/
def qualAt (cs : List Char) : Bool :=
  (QUALIFIER_WORDS.map String.data).any (fun w =>
    pyLowerList (cs.take w.length) = w &&
      (cs.drop w.length = [] || cs.drop w.length = ['.']))

/-- `_TRAILING_QUALIFIERS_RE.sub("", s)`: drop a trailing qualifier word
(with leading word boundary and optional final dot); leftmost match wins. -/
def dropTrailingQual : Bool → List Char → List Char
  | _, [] => []
  | prevW, c :: rest =>
    if !prevW && qualAt (c :: rest) then []
    else c :: dropTrailingQual (isWordChar c) rest

/-- `_sanitize_place`. -/
def sanitize_place (place : String) : String :=
  let c1 := pyStripChars [',', '.', ';'] (pyStrip place)
  let c2 := c1.data.map (fun c =>
    if c = '#' || c = '•' || c = '●' then ' ' else c)
  let c3 := subPhrases DIRECTION_ALTS c2
  let c4 := subPhrases NEAR_ALTS c3
  let c5 := stripEnds (fun c => [' ', ',', ';', ':', '-'].contains c)
    (wsCollapse c4)
  let c6 := stripEnds (fun c => [' ', ',', ';', ':', '-'].contains c)
    (dropTrailingQual false c5)
  ⟨c6⟩

/-- `_PARENS_RE.findall`: contents of `\(([^)]+)\)` matches, scanning left
to right, non-overlapping.  `fuel ≥ cs.length` keeps it structural. -/
def parensFindAux : Nat → List Char → List (List Char)
  | 0, _ => []
  | _ + 1, [] => []
  | fuel + 1, c :: rest =>
    if c = '(' then
      let content := rest.takeWhile (fun d => d ≠ ')')
      if content.isEmpty then parensFindAux fuel rest
      else
        match rest.drop content.length with
        | ')' :: after => content :: parensFindAux fuel after
        | _ => parensFindAux fuel rest
    else parensFindAux fuel rest

def parensFind (cs : List Char) : List (List Char) :=
  parensFindAux cs.length cs

/-- Python `s.split(sep)` for a single-character separator (keeps empty
pieces). -/
def splitChar (sep : Char) : List Char → List (List Char)
  | [] => [[]]
  | c :: rest =>
    if c = sep then [] :: splitChar sep rest
    else
      match splitChar sep rest with
      | [] => [[c]]
      | h :: t => (c :: h) :: t

/-- `place.split(",", 1)[0]`. -/
def beforeComma (place : String) : String :=
  ⟨place.data.takeWhile (fun c => c ≠ ',')⟩

/-- `place.split(",", 1)[-1]` when a comma is present. -/
def afterComma (place : String) : String :=
  ⟨(place.data.dropWhile (fun c => c ≠ ',')).tail⟩

/-- `_iter_alt_tokens`, materialized as the list the generator yields. -/
def iter_alt_tokens (place : String) : List String :=
  let parensOut :=
    ((parensFind place.data).map (fun chunk =>
      sanitize_place ⟨chunk⟩)).filter (fun c => c ≠ "")
  let commaOut :=
    if strContains place "," then
      let hd := sanitize_place (beforeComma place)
      let tl := sanitize_place (afterComma place)
      (if hd ≠ "" then [hd] else []) ++
        (if tl ≠ "" && tl ≠ hd then [tl] else [])
    else []
  let slashOut :=
    if strContains place "/" then
      ((splitChar '/' place.data).map (fun p =>
        sanitize_place ⟨p⟩)).filter (fun c => c ≠ "")
    else []
  parensOut ++ commaOut ++ slashOut

/-- `_COUNTRY_ALIASES`. -/
def COUNTRY_ALIASES : List (String × String) :=
  [("libia", "Libya"), ("libya", "Libya"), ("haiti", "Haiti"),
   ("haití", "Haiti"), ("colombia", "Colombia"), ("campello", "Spain"),
   ("españa", "Spain"), ("spain", "Spain"), ("gaza", "Gaza Strip"),
   ("gaza strip", "Gaza Strip"), ("palestine", "State of Palestine"),
   ("palestina", "State of Palestine"),
   ("state of palestine", "State of Palestine"), ("liberia", "Liberia")]

/-- `_canonical_country`. -/
def canonical_country : Option String → Option String
  | none => none
  | some c =>
    let norm := pyLower (pyStrip c)
    if norm = "" then none
    else
      match COUNTRY_ALIASES.find? (fun p => p.1 = norm) with
      | some p => some p.2
      | none => some (pyStrip c)

/-- The `_add` closure of `_build_queries`: state is (seen, queries). -/
def addQuery (st : List String × List String) (cand : String) :
    List String × List String :=
  let c := pyStripChars [',', ' '] cand
  if c = "" then st
  else if st.1.contains (pyLower c) then st
  else (st.1 ++ [pyLower c], st.2 ++ [c])

/-- The (seen, queries) state of `_build_queries` after the base and
sub-token phases. -/
def tokenStep (country : Option String)
    (st : List String × List String) (t : String) :
    List String × List String :=
  match country with
  | some c => addQuery (addQuery st t) (t ++ ", " ++ c)
  | none => addQuery st t

def buildState (place : String) (country : Option String) :
    List String × List String :=
  (iter_alt_tokens place).foldl (tokenStep country)
    (if sanitize_place place ≠ "" then
      match country with
      | some c =>
        addQuery (addQuery ([], []) (sanitize_place place))
          (sanitize_place place ++ ", " ++ c)
      | none => addQuery ([], []) (sanitize_place place)
    else ([], []))

/-- `_build_queries`: base and sub-token phases, then the bare-country
fallback when nothing survived. -/
def build_queries (place : String) (country : Option String) :
    List String :=
  if (buildState place country).2.isEmpty then
    match country with
    | some c => (addQuery (buildState place country) c).2
    | none => (buildState place country).2
  else (buildState place country).2

/-- `_cache_key` (it canonicalizes its country argument itself). -/
def cache_key (place : String) (country : Option String) : String :=
  pyLower (sanitize_place place) ++ "||" ++
    pyLower ((canonical_country country).getD "")

/-- A parsed Nominatim response item.  `latlon` is the joint result of
`float(item["lat"])`/`float(item["lon"])` (`none` = KeyError/ValueError);
the remaining fields are the `address` keys the code reads and
`item.get("type")`. -/
structure NominatimItem where
  latlon : Option (ℚ × ℚ)
  state : Option String
  region : Option String
  county : Option String
  city_district : Option String
  municipality : Option String
  city : Option String
  itemType : Option String
  deriving DecidableEq, Repr, Inhabited

/-- Outcome of one `_nominatim_search` call: an HTTP error status, any
other transport/decoding exception, or a decoded response (`none` =
empty result list). -/
inductive NetResult where
  | httpError (code : Nat)
  | transportError
  | ok (item : Option NominatimItem)
  deriving DecidableEq, Repr, Inhabited

/-- A `geocache` table row (keyed externally). -/
structure GeoEntry where
  lat : ℚ
  lon : ℚ
  country : Option String
  admin1 : Option String
  admin2 : Option String
  accuracy : Option String
  source : String
  deriving DecidableEq, Repr, Inhabited

/-- `geocache_get` (`botapp/services/incidentes_db.py`). -/
def geocache_get (db : List (String × GeoEntry)) (key : String) :
    Option GeoEntry :=
  (db.find? (fun p => p.1 = key)).map (fun p => p.2)

/-- `geocache_put`: INSERT ... ON CONFLICT(key) DO UPDATE (upsert). -/
def geocache_put (db : List (String × GeoEntry)) (key : String)
    (e : GeoEntry) : List (String × GeoEntry) :=
  if db.any (fun p => p.1 = key) then
    db.map (fun p => if p.1 = key then (key, e) else p)
  else db ++ [(key, e)]

/-- The tuple `geocode_place` returns on success. -/
structure GeoResult where
  lat : ℚ
  lon : ℚ
  admin1 : Option String
  admin2 : Option String
  accuracy : Option String
  source : String
  deriving DecidableEq, Repr, Inhabited

/-- `a or b` on optional address fields (None and "" falsy). -/
def pyOrOptF (a b : Option String) : Option String := pyOrOpt a b

/-- The query loop of `geocode_place`: walks the query list in order;
sleeps 1050 ms before each request; HTTP 429/503 sleeps another 5000 ms and moves
to the next query; any other HTTP status aborts with `none`; any other
exception moves to the next query; an empty or unparseable result moves to
the next query; the first good result is cached and returned as
"nominatim".  Returns (result, cache, sleep trace). -/
def tryQueries (net : String → NetResult) (key : String)
    (cc : Option String) (db : List (String × GeoEntry)) :
    List String →
      Option GeoResult × List (String × GeoEntry) × List Nat
  | [] => (none, db, [])
  | q :: rest =>
    match net q with
    | NetResult.httpError code =>
      if code = 429 || code = 503 then
        let r := tryQueries net key cc db rest
        (r.1, r.2.1, (1050 : Nat) :: (5000 : Nat) :: r.2.2)
      else (none, db, [(1050 : Nat)])
    | NetResult.transportError =>
      let r := tryQueries net key cc db rest
      (r.1, r.2.1, (1050 : Nat) :: r.2.2)
    | NetResult.ok none =>
      let r := tryQueries net key cc db rest
      (r.1, r.2.1, (1050 : Nat) :: r.2.2)
    | NetResult.ok (some item) =>
      match item.latlon with
      | none =>
        let r := tryQueries net key cc db rest
        (r.1, r.2.1, (1050 : Nat) :: r.2.2)
      | some (lat, lon) =>
        let admin1 := pyOrOptF item.state item.region
        let admin2 := pyOrOptF (pyOrOptF (pyOrOptF item.county
          item.city_district) item.municipality) item.city
        (some ⟨lat, lon, admin1, admin2, item.itemType, "nominatim"⟩,
          geocache_put db key ⟨lat, lon, cc, admin1, admin2, item.itemType,
            "nominatim"⟩,
          [(1050 : Nat)])

def USE_ONLINE_GEOCODER : Bool := true

/-- `geocode_place`: empty place → None; cache hit → immediate "cache"
result; otherwise run the query loop.  State-passing version of the
Python function: returns (result, cache state, sleep trace). -/
def geocode_place (net : String → NetResult)
    (db : List (String × GeoEntry)) (place : String)
    (country : Option String) :
    Option GeoResult × List (String × GeoEntry) × List Nat :=
  if pyStrip place = "" then (none, db, [])
  else
    match geocache_get db (cache_key place (canonical_country country)) with
    | some e =>
      (some ⟨e.lat, e.lon, e.admin1, e.admin2, e.accuracy, "cache"⟩, db, [])
    | none =>
      if USE_ONLINE_GEOCODER = false then (none, db, [])
      else if (build_queries place (canonical_country country)).isEmpty then
        (none, db, [])
      else
        tryQueries net (cache_key place (canonical_country country))
          (canonical_country country) db
          (build_queries place (canonical_country country))

/-! ## Claim C9: the spec's construction of the query list -/

/-- The normalization `_add` applies to a candidate: strip `", "` ends,
drop if empty. -/
def addNorm (cand : String) : Option String :=
  let c := pyStripChars [',', ' '] cand
  if c = "" then none else some c

/-- Deduplicate keeping first occurrences, keyed by `pyLower`; `seen`
holds the lowercase keys already emitted. -/
def dedupByLowerAux (seen : List String) : List String → List String
  | [] => []
  | s :: rest =>
    if seen.contains (pyLower s) then dedupByLowerAux seen rest
    else s :: dedupByLowerAux (seen ++ [pyLower s]) rest

def dedupByLower (l : List String) : List String := dedupByLowerAux [] l

def concatMap {α β : Type} (f : α → List β) : List α → List β
  | [] => []
  | x :: l => f x ++ concatMap f l

/-- A sub-token's claimed candidates: the token alone, then token plus
country when a country is given. -/
def tokenCands (country : Option String) (t : String) : List String :=
  [t] ++
    (match country with
      | some c => [t ++ ", " ++ c]
      | none => [])

/-- The candidate sequence the claim enumerates: sanitized place alone,
place plus country, then for each sub-token the token alone followed by
token plus country. -/
def claimedCandidates (place : String) (country : Option String) :
    List String :=
  (if sanitize_place place ≠ "" then
    [sanitize_place place] ++
      (match country with
        | some c => [sanitize_place place ++ ", " ++ c]
        | none => [])
  else []) ++
    concatMap (tokenCands country) (iter_alt_tokens place)

/-- The claim's query list: the enumerated candidates, normalized and
deduplicated by lowercase — with no further fallback. -/
def claimedQueriesNoFallback (place : String) (country : Option String) :
    List String :=
  dedupByLower ((claimedCandidates place country).filterMap addNorm)

/-- The amended construction: as claimed, plus the source's bare-country
fallback when the list would otherwise be empty. -/
def claimedQueries (place : String) (country : Option String) :
    List String :=
  if (claimedQueriesNoFallback place country).isEmpty then
    match country with
    | some c => (addNorm c).toList
    | none => []
  else claimedQueriesNoFallback place country

theorem addQuery_of_norm_none {cand : String} (h : addNorm cand = none)
    (st : List String × List String) : addQuery st cand = st := by
  simp only [addNorm] at h
  simp only [addQuery]
  by_cases hc : pyStripChars [',', ' '] cand = ""
  · simp [hc]
  · simp [hc] at h

theorem addQuery_of_norm_some {cand c' : String}
    (h : addNorm cand = some c') (st : List String × List String) :
    addQuery st cand =
      if st.1.contains (pyLower c') then st
      else (st.1 ++ [pyLower c'], st.2 ++ [c']) := by
  simp only [addNorm] at h
  by_cases hc : pyStripChars [',', ' '] cand = ""
  · simp [hc] at h
  · simp only [hc, if_neg, reduceIte] at h
    simp only [addQuery, hc, if_neg]
    rw [show pyStripChars [',', ' '] cand = c' from by
      simpa using h]
    simp [hc]

/-- The `_add`-fold over any candidate list is exactly "normalize, then
dedup-by-lowercase", relative to the incoming (seen, queries) state. -/
theorem foldl_addQuery_eq :
    ∀ (cands : List String) (st : List String × List String),
      (cands.foldl addQuery st).2 =
          st.2 ++ dedupByLowerAux st.1 (cands.filterMap addNorm) ∧
        (cands.foldl addQuery st).1 =
          st.1 ++
            (dedupByLowerAux st.1 (cands.filterMap addNorm)).map pyLower := by
  intro cands
  induction cands with
  | nil => intro st; simp [dedupByLowerAux]
  | cons cand rest ih =>
    intro st
    simp only [List.foldl_cons, List.filterMap_cons]
    cases hn : addNorm cand with
    | none => rw [addQuery_of_norm_none hn]; exact ih st
    | some c' =>
      rw [addQuery_of_norm_some hn]
      by_cases hseen : st.1.contains (pyLower c')
      · rw [if_pos hseen]
        simp only [dedupByLowerAux, hseen, if_pos]
        exact ih st
      · rw [if_neg hseen]
        have hrec := ih (st.1 ++ [pyLower c'], st.2 ++ [c'])
        simp only [dedupByLowerAux, hseen]
        constructor
        · rw [hrec.1]
          simp
        · rw [hrec.2]
          simp

/-- The token phase of `_build_queries` equals the `_add`-fold over the
expanded token/token+country candidate list. -/
theorem tokensFold_eq (country : Option String) :
    ∀ (tokens : List String) (st : List String × List String),
      tokens.foldl (tokenStep country) st =
        (concatMap (tokenCands country) tokens).foldl addQuery st := by
  intro tokens
  induction tokens with
  | nil => intro st; rfl
  | cons t rest ih =>
    intro st
    cases country with
    | none =>
      simp only [List.foldl_cons, concatMap, List.foldl_append, tokenStep,
        tokenCands]
      exact ih _
    | some c =>
      simp only [List.foldl_cons, concatMap, List.foldl_append, tokenStep,
        tokenCands]
      exact ih _

/-- `_build_queries`'s loop state is the `_add`-fold over the claim's
candidate sequence. -/
theorem buildState_eq (place : String) (country : Option String) :
    buildState place country =
      (claimedCandidates place country).foldl addQuery ([], []) := by
  unfold buildState claimedCandidates
  rw [tokensFold_eq, List.foldl_append]
  generalize sanitize_place place = S
  by_cases hbase : S ≠ ""
  · rw [if_pos hbase, if_pos hbase]
    cases country with
    | none => rfl
    | some c => rfl
  · rw [if_neg hbase, if_neg hbase]
    rfl

/-- The fallback `_add` on the empty state yields the normalized country
(or nothing). -/
theorem addQuery_empty_state (c : String) :
    (addQuery ([], []) c).2 = (addNorm c).toList := by
  simp only [addQuery, addNorm]
  by_cases hc : pyStripChars [',', ' '] c = ""
  · simp [hc]
  · simp [hc]

set_option maxHeartbeats 0 in
/-- Claim C9 (amended): on a cache miss the resolver's query list is
exactly: sanitized full place, full place plus country, then for each
parenthetical/comma-segment/slash-segment sub-token that token followed by
token plus country — each candidate stripped of `", "` ends, empties
dropped, deduplicated by lowercase — and, when this list is empty and a
country is given, the bare country as the single query.  In particular for
place "Ain Zara, Tripoli, Libya" the query "Ain Zara" (index 2) is tried
before "Tripoli, Libya" (index 4). -/
theorem c9_amended_query_order :
    (∀ (place : String) (country : Option String),
      build_queries place country = claimedQueries place country) ∧
    build_queries "Ain Zara, Tripoli, Libya" (some "Libya") =
      ["Ain Zara, Tripoli, Libya", "Ain Zara, Tripoli, Libya, Libya",
       "Ain Zara", "Ain Zara, Libya", "Tripoli, Libya",
       "Tripoli, Libya, Libya"] := by
  constructor
  · intro place country
    have hfold := foldl_addQuery_eq (claimedCandidates place country) ([], [])
    have hq : (buildState place country).2 =
        claimedQueriesNoFallback place country := by
      rw [buildState_eq place country, hfold.1]
      show [] ++ dedupByLowerAux []
          ((claimedCandidates place country).filterMap addNorm) =
        claimedQueriesNoFallback place country
      rw [List.nil_append]
      rfl
    have hs : (buildState place country).1 =
        (claimedQueriesNoFallback place country).map pyLower := by
      rw [buildState_eq place country, hfold.2]
      show [] ++ (dedupByLowerAux []
          ((claimedCandidates place country).filterMap addNorm)).map pyLower =
        (claimedQueriesNoFallback place country).map pyLower
      rw [List.nil_append]
      rfl
    unfold build_queries claimedQueries
    rw [hq]
    by_cases hempty : (claimedQueriesNoFallback place country).isEmpty
    · rw [if_pos hempty, if_pos hempty]
      cases country with
      | none => exact List.isEmpty_iff.mp hempty
      | some c =>
        have hsn : (buildState place (some c)).1 = [] := by
          rw [hs, List.isEmpty_iff.mp hempty]
          rfl
        rcases hbs : buildState place (some c) with ⟨sn, qs⟩
        rw [hbs] at hsn hq
        have hsn2 : sn = [] := hsn
        have hqs2 : qs = [] := by
          have hq3 : qs = claimedQueriesNoFallback place (some c) := hq
          rw [hq3, List.isEmpty_iff.mp hempty]
        subst hsn2
        subst hqs2
        exact addQuery_empty_state c
    · rw [if_neg hempty, if_neg hempty]
  · decide

/-- Claim C9, counterexample: the claim omits the bare-country fallback.
For place "near" (fully removed by sanitization, no sub-tokens) with
country "Libya", the code queries ["Libya"] while the claimed
construction yields the empty list. -/
theorem c9_counterexample :
    build_queries "near" (some "Libya") = ["Libya"] ∧
    claimedQueriesNoFallback "near" (some "Libya") = [] ∧
    ¬ (build_queries "near" (some "Libya") =
        claimedQueriesNoFallback "near" (some "Libya")) := by
  refine ⟨by decide, by decide, by decide⟩

/-! ## Claims C3/C4: geocode idempotence and transport-error handling -/

theorem geocache_get_cons_ne {key : String} {x : String × GeoEntry}
    (hx : x.1 ≠ key) (db : List (String × GeoEntry)) :
    geocache_get (x :: db) key = geocache_get db key := by
  simp only [geocache_get]
  rw [List.find?_cons_of_neg _ (by simp [hx])]

theorem geocache_get_map_upsert (key : String) (e : GeoEntry) :
    ∀ db : List (String × GeoEntry),
      geocache_get (db.map (fun p => if p.1 = key then (key, e) else p))
          key =
        if db.any (fun p => p.1 = key) then some e else none := by
  intro db
  induction db with
  | nil => simp [geocache_get]
  | cons x rest ih =>
    by_cases hx : x.1 = key
    · simp [geocache_get, List.find?, hx]
    · have hxd : decide (x.1 = key) = false := by simp [hx]
      simp only [List.map_cons, if_neg hx, List.any_cons]
      rw [geocache_get_cons_ne hx, ih]
      simp only [hxd, Bool.false_or]

theorem geocache_get_append (key : String) (e : GeoEntry) :
    ∀ db : List (String × GeoEntry),
      db.any (fun p => p.1 = key) = false →
      geocache_get (db ++ [(key, e)]) key = some e := by
  intro db
  induction db with
  | nil => intro _; simp [geocache_get, List.find?]
  | cons x rest ih =>
    intro h
    rw [List.any_cons, Bool.or_eq_false_iff] at h
    have hx1 : x.1 ≠ key := by
      intro hcon
      rw [hcon] at h
      simpa using h.1
    rw [List.cons_append, geocache_get_cons_ne hx1]
    exact ih h.2

/-- The upsert makes the key readable with exactly the stored entry. -/
theorem geocache_get_put (db : List (String × GeoEntry)) (key : String)
    (e : GeoEntry) : geocache_get (geocache_put db key e) key = some e := by
  unfold geocache_put
  by_cases h : db.any (fun p => p.1 = key)
  · rw [if_pos h, geocache_get_map_upsert, if_pos h]
  · rw [if_neg h]
    apply geocache_get_append
    cases hb : db.any (fun p => p.1 = key) with
    | false => rfl
    | true => exact absurd hb h

/-- Whenever the query loop succeeds, the result is a "nominatim" result
and the cache gained exactly that result under the lookup key. -/
theorem tryQueries_success (net : String → NetResult) (key : String)
    (cc : Option String) (db : List (String × GeoEntry)) :
    ∀ (qs : List String) (r : GeoResult) (db2 : List (String × GeoEntry))
      (tr : List Nat),
      tryQueries net key cc db qs = (some r, db2, tr) →
      r.source = "nominatim" ∧
        db2 = geocache_put db key
          ⟨r.lat, r.lon, cc, r.admin1, r.admin2, r.accuracy, "nominatim"⟩ := by
  intro qs
  induction qs with
  | nil =>
    intro r db2 tr h
    simp [tryQueries] at h
  | cons q rest ih =>
    intro r db2 tr h
    cases hq : net q with
    | httpError code =>
      simp only [tryQueries, hq] at h
      cases hcode : (decide (code = 429) || decide (code = 503)) with
      | true =>
        rw [hcode, if_pos rfl] at h
        rcases h0 : tryQueries net key cc db rest with ⟨res0, db0, tr0⟩
        rw [h0] at h
        simp only [Prod.mk.injEq] at h
        exact ih r db2 tr0 (by rw [h0, h.1, h.2.1])
      | false =>
        rw [hcode, if_neg (by simp)] at h
        simp at h
    | transportError =>
      simp only [tryQueries, hq] at h
      rcases h0 : tryQueries net key cc db rest with ⟨res0, db0, tr0⟩
      rw [h0] at h
      simp only [Prod.mk.injEq] at h
      exact ih r db2 tr0 (by rw [h0, h.1, h.2.1])
    | ok item =>
      cases item with
      | none =>
        simp only [tryQueries, hq] at h
        rcases h0 : tryQueries net key cc db rest with ⟨res0, db0, tr0⟩
        rw [h0] at h
        simp only [Prod.mk.injEq] at h
        exact ih r db2 tr0 (by rw [h0, h.1, h.2.1])
      | some it =>
        cases hll : it.latlon with
        | none =>
          simp only [tryQueries, hq, hll] at h
          rcases h0 : tryQueries net key cc db rest with ⟨res0, db0, tr0⟩
          rw [h0] at h
          simp only [Prod.mk.injEq] at h
          exact ih r db2 tr0 (by rw [h0, h.1, h.2.1])
        | some ll =>
          rcases ll with ⟨lat, lon⟩
          simp only [tryQueries, hq, hll] at h
          simp only [Prod.mk.injEq, Option.some.injEq] at h
          refine ⟨?_, ?_⟩
          · rw [← h.1]
          · rw [← h.2.1, ← h.1]

/-- Claim C3: if `geocode_place` succeeds, a second call with the same
place and country (over the resulting cache state) returns the same
coordinates with source "cache": on the success path the entry is written
under exactly the key the next lookup computes, and a cache hit returns
immediately. -/
theorem c3_geocode_idempotent (net : String → NetResult)
    (db : List (String × GeoEntry)) (place : String)
    (country : Option String) (r1 : GeoResult)
    (h : (geocode_place net db place country).1 = some r1) :
    ∃ r2 : GeoResult,
      (geocode_place net (geocode_place net db place country).2.1 place
            country).1 = some r2 ∧
        r2.lat = r1.lat ∧ r2.lon = r1.lon ∧ r2.source = "cache" := by
  by_cases hp : pyStrip place = ""
  · rw [geocode_place, if_pos hp] at h
    simp at h
  · cases hget : geocache_get db (cache_key place (canonical_country country))
      with
    | some e =>
      have hr1 : r1 = ⟨e.lat, e.lon, e.admin1, e.admin2, e.accuracy, "cache"⟩
          := by
        rw [geocode_place, if_neg hp, hget] at h
        simpa using h.symm
      have hdb1 : (geocode_place net db place country).2.1 = db := by
        rw [geocode_place, if_neg hp, hget]
      refine ⟨⟨e.lat, e.lon, e.admin1, e.admin2, e.accuracy, "cache"⟩, ?_,
        by rw [hr1], by rw [hr1], rfl⟩
      rw [hdb1, geocode_place, if_neg hp, hget]
    | none =>
      rw [geocode_place, if_neg hp, hget] at h
      rw [if_neg (by simp [USE_ONLINE_GEOCODER])] at h
      by_cases hqe : (build_queries place (canonical_country country)).isEmpty
      · rw [if_pos hqe] at h
        simp at h
      · rw [if_neg hqe] at h
        rcases htq : tryQueries net
            (cache_key place (canonical_country country))
            (canonical_country country) db
            (build_queries place (canonical_country country))
          with ⟨res, db2, tr⟩
        rw [htq] at h
        have hres : res = some r1 := h
        obtain ⟨hsrc, hdb2⟩ :=
          tryQueries_success net _ _ db _ r1 db2 tr (by rw [htq, hres])
        have hdb1 : (geocode_place net db place country).2.1 = db2 := by
          rw [geocode_place, if_neg hp, hget,
            if_neg (by simp [USE_ONLINE_GEOCODER]), if_neg hqe, htq]
        refine ⟨⟨r1.lat, r1.lon, r1.admin1, r1.admin2, r1.accuracy, "cache"⟩,
          ?_, rfl, rfl, rfl⟩
        rw [hdb1, hdb2, geocode_place, if_neg hp, geocache_get_put]

/-- Claim C3, witness: a network that always answers (1, 2) resolves "x"
online; the second call then answers from the cache with the same
coordinates. -/
theorem c3_witness :
    (geocode_place
        (fun _ => NetResult.ok
          (some ⟨some (1, 2), none, none, none, none, none, none, none⟩))
        [] "x" none).1 =
      some ⟨1, 2, none, none, none, "nominatim"⟩ ∧
    ∃ r2 : GeoResult,
      (geocode_place
          (fun _ => NetResult.ok
            (some ⟨some (1, 2), none, none, none, none, none, none, none⟩))
          (geocode_place
            (fun _ => NetResult.ok
              (some ⟨some (1, 2), none, none, none, none, none, none,
                none⟩))
            [] "x" none).2.1 "x" none).1 = some r2 ∧
        r2.lat = (1 : ℚ) ∧ r2.lon = (2 : ℚ) ∧ r2.source = "cache" :=
  ⟨by decide,
    c3_geocode_idempotent
      (fun _ => NetResult.ok
        (some ⟨some (1, 2), none, none, none, none, none, none, none⟩))
      [] "x" none ⟨1, 2, none, none, none, "nominatim"⟩ (by decide)⟩

/-- Claim C4, counterexample: the claim says any non-429/503 transport
error aborts resolution of the place and returns null.  In the code only
non-429/503 HTTP *status* errors abort; other transport exceptions skip to
the next query: with a network that raises a non-HTTP transport error on
the first query "a, b" and succeeds on the next query "a", the resolver
still returns a (non-null) result. -/
theorem c4_counterexample :
    (fun q => if q = "a, b" then NetResult.transportError
      else NetResult.ok
        (some ⟨some (1, 2), none, none, none, none, none, none, none⟩))
      "a, b" = NetResult.transportError ∧
    build_queries "a, b" none = ["a, b", "a", "b"] ∧
    (geocode_place
        (fun q => if q = "a, b" then NetResult.transportError
          else NetResult.ok
            (some ⟨some (1, 2), none, none, none, none, none, none, none⟩))
        [] "a, b" none).1 =
      some ⟨1, 2, none, none, none, "nominatim"⟩ := by
  refine ⟨by decide, by decide, by decide⟩

/-- Claim C4 (amended): during resolution of one place, an HTTP 429 or 503
response causes a recorded 5-second wait and continuation with the next
query; any other HTTP status error aborts resolution entirely (returns
null, attempts no further query); any other transport error skips to the
next query (it does not abort). -/
theorem c4_amended_error_asymmetry :
    (∀ (net : String → NetResult) (key : String) (cc : Option String)
        (db : List (String × GeoEntry)) (q : String) (rest : List String)
        (code : Nat),
      net q = NetResult.httpError code → (code = 429 ∨ code = 503) →
      tryQueries net key cc db (q :: rest) =
        ((tryQueries net key cc db rest).1,
          (tryQueries net key cc db rest).2.1,
          (1050 : Nat) :: (5000 : Nat) ::
            (tryQueries net key cc db rest).2.2)) ∧
    (∀ (net : String → NetResult) (key : String) (cc : Option String)
        (db : List (String × GeoEntry)) (q : String) (rest : List String)
        (code : Nat),
      net q = NetResult.httpError code → code ≠ 429 → code ≠ 503 →
      tryQueries net key cc db (q :: rest) =
        (none, db, [(1050 : Nat)])) ∧
    (∀ (net : String → NetResult) (key : String) (cc : Option String)
        (db : List (String × GeoEntry)) (q : String) (rest : List String),
      net q = NetResult.transportError →
      tryQueries net key cc db (q :: rest) =
        ((tryQueries net key cc db rest).1,
          (tryQueries net key cc db rest).2.1,
          (1050 : Nat) :: (tryQueries net key cc db rest).2.2)) := by
  refine ⟨?_, ?_, ?_⟩
  · intro net key cc db q rest code hq hcode
    have hb : (decide (code = 429) || decide (code = 503)) = true := by
      rcases hcode with h | h <;> simp [h]
    simp [tryQueries, hq, hb]
  · intro net key cc db q rest code hq h429 h503
    have hb : (decide (code = 429) || decide (code = 503)) = false := by
      simp [h429, h503]
    simp only [tryQueries, hq, hb]
    rw [if_neg (by simp)]
  · intro net key cc db q rest hq
    simp only [tryQueries, hq]

/-- Claim C4 (amended), witness: concrete instances of all three behaviors
on a two-query list. -/
theorem c4_amended_witness :
    ((fun q => if q = "q1" then NetResult.httpError 429
        else NetResult.ok none) "q1" = NetResult.httpError 429 ∧
      tryQueries (fun q => if q = "q1" then NetResult.httpError 429
          else NetResult.ok none) "k" none [] ["q1", "q2"] =
        (none, [], [(1050 : Nat), 5000, 1050])) ∧
    ((fun q => if q = "q1" then NetResult.httpError 404
        else NetResult.ok none) "q1" = NetResult.httpError 404 ∧
      tryQueries (fun q => if q = "q1" then NetResult.httpError 404
          else NetResult.ok none) "k" none [] ["q1", "q2"] =
        (none, [], [(1050 : Nat)])) ∧
    ((fun q => if q = "q1" then NetResult.transportError
        else NetResult.ok none) "q1" = NetResult.transportError ∧
      tryQueries (fun q => if q = "q1" then NetResult.transportError
          else NetResult.ok none) "k" none [] ["q1", "q2"] =
        (none, [], [(1050 : Nat), 1050])) := by
  refine ⟨⟨by decide, ?_⟩, ⟨by decide, ?_⟩, ⟨by decide, ?_⟩⟩
  · rw [c4_amended_error_asymmetry.1
      (fun q => if q = "q1" then NetResult.httpError 429
        else NetResult.ok none) "k" none [] "q1" ["q2"] 429 (by decide)
      (Or.inl rfl)]
    decide
  · rw [c4_amended_error_asymmetry.2.1
      (fun q => if q = "q1" then NetResult.httpError 404
        else NetResult.ok none) "k" none [] "q1" ["q2"] 404 (by decide)
      (by decide) (by decide)]
  · rw [c4_amended_error_asymmetry.2.2
      (fun q => if q = "q1" then NetResult.transportError
        else NetResult.ok none) "k" none [] "q1" ["q2"] (by decide)]
    decide

/-! ## SICU deduplicator (`botapp/handlers/sicu_full.py`)

`_parse_time_to_minutes`, `_similarity` (difflib `SequenceMatcher.ratio`)
and `deduplicate_sicu_incidents`.

`SequenceMatcher` is embedded faithfully for the default
`isjunk=None, autojunk=True` configuration: when `len(b) >= 200`,
characters occurring more than `len(b) // 100 + 1` times in `b` are
"popular" and excluded from the matching table (but extension over equal
characters still crosses them, as in the source, where `bjunk` is empty);
`find_longest_match` selects, scanning end positions in ascending
`(i, j)` order, the first longest run, and `ratio` is twice the recursive
matched total over the two lengths — computed here in exact `ℚ`
arithmetic instead of floating point. -/

/-- Autojunk: popular characters of `b` (only when `len(b) >= 200`). -/
def popularB (b : List Char) : Char → Bool := fun c =>
  200 ≤ b.length && b.length / 100 + 1 < b.count c

/-- Ascending positions of `c` in `b`. -/
def positionsOf (b : List Char) (c : Char) : List Nat :=
  (List.range b.length).filter (fun j => b.getD j ' ' = c)

def lookupJ (l : List (Nat × Nat)) (j : Nat) : Nat :=
  match l.find? (fun p => p.1 = j) with
  | some p => p.2
  | none => 0

/-- One row `i` of `find_longest_match`'s dynamic program: state is
((besti, bestj, bestsize), previous row `j2len`); returns the updated
best and the new row. -/
def flmRow (a b : List Char) (popular : Char → Bool) (blo bhi : Nat)
    (st : (Nat × Nat × Nat) × List (Nat × Nat)) (i : Nat) :
    (Nat × Nat × Nat) × List (Nat × Nat) :=
  let c := a.getD i ' '
  let js := if popular c then []
    else (positionsOf b c).filter (fun j => blo ≤ j && j < bhi)
  let r := js.foldl
    (fun (p : (Nat × Nat × Nat) × List (Nat × Nat)) j =>
      let k := (if j = 0 then 0 else lookupJ st.2 (j - 1)) + 1
      let nb := if p.1.2.2 < k then (i + 1 - k, j + 1 - k, k) else p.1
      (nb, p.2 ++ [(j, k)]))
    (st.1, [])
  r

/-- Simultaneous left extension of the best block (no junk set, so the
only condition is character equality and the interval bounds). -/
def extendLeft (a b : List Char) (alo blo : Nat) : Nat → Nat → Nat
  | 0, _ => 0
  | bi + 1, bj =>
    if alo ≤ bi && blo < bj && decide (a.getD bi ' ' = b.getD (bj - 1) ' ')
    then 1 + extendLeft a b alo blo bi (bj - 1)
    else 0

/-- Right extension (fuel-bounded; `fuel = ahi` suffices). -/
def extendRight (a b : List Char) (ahi bhi : Nat) : Nat → Nat → Nat → Nat
  | 0, _, _ => 0
  | fuel + 1, p, q =>
    if p < ahi && q < bhi && decide (a.getD p ' ' = b.getD q ' ')
    then 1 + extendRight a b ahi bhi fuel (p + 1) (q + 1)
    else 0

/-- `find_longest_match` on the interval `[alo, ahi) × [blo, bhi)`. -/
def find_longest_match (a b : List Char) (popular : Char → Bool)
    (alo ahi blo bhi : Nat) : Nat × Nat × Nat :=
  let st := (List.range' alo (ahi - alo)).foldl
    (flmRow a b popular blo bhi) ((alo, blo, 0), [])
  let bi := st.1.1
  let bj := st.1.2.1
  let bs := st.1.2.2
  let l := extendLeft a b alo blo bi bj
  let bi2 := bi - l
  let bj2 := bj - l
  let bs2 := bs + l
  let r := extendRight a b ahi bhi ahi (bi2 + bs2) (bj2 + bs2)
  (bi2, bj2, bs2 + r)

/-- Total size of the matching blocks (the recursion of
`get_matching_blocks`; merging adjacent blocks does not change the sum).
`fuel ≥ (ahi - alo) + (bhi - blo)` suffices: each split removes at least
one element from each side. -/
def matchSumAux (a b : List Char) (popular : Char → Bool) :
    Nat → Nat → Nat → Nat → Nat → Nat
  | 0, _, _, _, _ => 0
  | fuel + 1, alo, ahi, blo, bhi =>
    let m := find_longest_match a b popular alo ahi blo bhi
    if m.2.2 = 0 then 0
    else
      matchSumAux a b popular fuel alo m.1 blo m.2.1 + m.2.2 +
        matchSumAux a b popular fuel (m.1 + m.2.2) ahi (m.2.1 + m.2.2) bhi

def matchSum (a b : List Char) (popular : Char → Bool) : Nat :=
  matchSumAux a b popular (a.length + b.length + 1) 0 a.length 0 b.length

/-- `_similarity(a, b)`: strip and lowercase both texts; 0.0 when either
is empty; otherwise `SequenceMatcher(None, a, b).ratio()` (exact `ℚ`). -/
def similarity (a b : String) : ℚ :=
  let a2 := pyLower (pyStrip a)
  let b2 := pyLower (pyStrip b)
  if a2 = "" || b2 = "" then 0
  else (2 * (matchSum a2.data b2.data (popularB b2.data) : ℚ)) /
    ((a2.length : ℚ) + (b2.length : ℚ))

/-- The `sim >= 0.75` test of the deduplicator in executable integer form
(`2M/(la+lb) >= 3/4  iff  3(la+lb) <= 8M`); `false` when either stripped
text is empty (similarity 0.0). -/
def simPass (a b : String) : Bool :=
  let a2 := pyLower (pyStrip a)
  let b2 := pyLower (pyStrip b)
  if a2 = "" || b2 = "" then false
  else 3 * (a2.length + b2.length) ≤
    8 * matchSum a2.data b2.data (popularB b2.data)

/-- Python `int(s)` digit parsing for ASCII decimal literals: digit
groups separated by single underscores (`1_000` is valid, `_1`, `1_`
and `1__2` are not). -/
def pyIntGroups : Nat → Bool → List Char → Option Nat
  | acc, prev, [] => if prev then some acc else none
  | acc, prev, c :: rest =>
    if pyIsDigit c then pyIntGroups (acc * 10 + (c.toNat - 48)) true rest
    else if c = '_' && prev then
      match rest with
      | d :: _ => if pyIsDigit d then pyIntGroups acc false rest else none
      | [] => none
    else none

def pyInt (s : String) : Option Int :=
  let cs := stripEnds pyIsSpace s.data
  match cs with
  | '+' :: rest => (pyIntGroups 0 false rest).map (fun n => (n : Int))
  | '-' :: rest => (pyIntGroups 0 false rest).map (fun n => -(n : Int))
  | rest => (pyIntGroups 0 false rest).map (fun n => (n : Int))

/-- `_parse_time_to_minutes`: split the stripped hora on `:`; `int` the
first part as hours and the second (if any) as minutes; any parse failure
gives `None`. -/
def parse_time_to_minutes (hora : String) : Option Int :=
  let h := pyStrip hora
  if h = "" then none
  else
    let parts := splitChar ':' h.data
    match pyInt ⟨parts.headD []⟩ with
    | none => none
    | some hh =>
      if 1 < parts.length then
        match pyInt ⟨parts.getD 1 []⟩ with
        | none => none
        | some mm => some (hh * 60 + mm)
      else some (hh * 60)

/-- A SICU CSV row (all fields strings; a missing dict key behaves as ""
under the `x or ""` reads in the source). -/
structure SicuRow where
  pais : String
  categoria_sicu : String
  fecha : String
  hora : String
  localizacion : String
  descripcion : String
  lat : String
  lon : String
  fuente_URL : String
  fuente : String
  deriving DecidableEq, Repr, Inhabited

/-- Python `a or b` on plain strings ("" falsy). -/
def pyOrS (a b : String) : String := if a = "" then b else a

/-- Does `row` join the cluster whose representative is `rep`?  Mirrors
the loop body: similarity below 0.75 rejects; then, when both horas
parse, a gap above 120 minutes rejects; otherwise the row joins. -/
def qualifies (rep row : SicuRow) : Bool :=
  let desc := pyStrip row.descripcion
  let repDesc := pyStrip rep.descripcion
  if ¬ simPass desc repDesc then false
  else
    match parse_time_to_minutes row.hora, parse_time_to_minutes rep.hora
      with
    | some t, some rt => (t - rt).natAbs ≤ 120
    | _, _ => true

/-- The inner `for cluster in clusters` loop: append the row to the first
qualifying cluster, else open a new cluster at the end. -/
def insertRow : List (List SicuRow) → SicuRow → List (List SicuRow)
  | [], row => [[row]]
  | c :: cs, row =>
    if qualifies (c.headD default) row then (c ++ [row]) :: cs
    else c :: insertRow cs row

/-- The clustering pass over one group's rows in original order. -/
def buildClusters (items : List SicuRow) : List (List SicuRow) :=
  items.foldl insertRow []

/-- `" | ".join`. -/
def joinPipe : List String → String
  | [] => ""
  | [s] => s
  | s :: rest => s ++ " | " ++ joinPipe rest

/-- Collect the distinct non-empty sources of a cluster, in first-seen
order (`fuente_URL or fuente`, stripped). -/
def collectFuentes : List SicuRow → List String → List String
  | [], acc => acc
  | r :: rest, acc =>
    let f := pyStrip (pyOrS r.fuente_URL r.fuente)
    if f ≠ "" && ¬ acc.contains f then collectFuentes rest (acc ++ [f])
    else collectFuentes rest acc

/-- Merge one cluster: singleton passes through; otherwise the first row
is the base, sources are unioned into `fuente_URL`, and empty `lat`/`lon`
take the first non-empty (stripped) value found in the cluster. -/
def mergeCluster : List SicuRow → SicuRow
  | [] => default
  | [r] => r
  | r :: r2 :: rest =>
    let cluster := r :: r2 :: rest
    let fuentes := collectFuentes cluster []
    let base1 := if fuentes ≠ [] then { r with fuente_URL := joinPipe fuentes }
      else r
    let base2 :=
      if pyStrip base1.lat = "" then
        match cluster.find? (fun x => pyStrip x.lat ≠ "") with
        | some x => { base1 with lat := pyStrip x.lat }
        | none => base1
      else base1
    if pyStrip base2.lon = "" then
      match cluster.find? (fun x => pyStrip x.lon ≠ "") with
      | some x => { base2 with lon := pyStrip x.lon }
      | none => base2
    else base2

/-- The grouping key used by the code: pais, categoria_sicu and
localizacion stripped and lowercased; fecha only stripped. -/
def groupKey (r : SicuRow) : String × String × String × String :=
  (pyLower (pyStrip r.pais), pyLower (pyStrip r.categoria_sicu),
    pyStrip r.fecha, pyLower (pyStrip r.localizacion))

/-- Python-dict grouping by a key function: the first group is all rows
sharing the first row's key (in order), then recurse on the rest; key
order is first appearance. -/
def groupsOfBy (key : SicuRow → String × String × String × String) :
    List SicuRow → List (List SicuRow)
  | [] => []
  | r :: rs =>
    (r :: rs.filter (fun x => key x = key r)) ::
      groupsOfBy key (rs.filter (fun x => ¬ (key x = key r)))
termination_by l => l.length
decreasing_by
  simp only [List.length_cons]
  exact Nat.lt_succ_of_le (List.length_filter_le _ _)

def groupsOf (rows : List SicuRow) : List (List SicuRow) :=
  groupsOfBy groupKey rows

/-- `deduplicate_sicu_incidents`: group, cluster each group, merge each
cluster, emitting groups in first-appearance order. -/
def deduplicate_sicu_incidents (rows : List SicuRow) : List SicuRow :=
  concatMap (fun g => (buildClusters g).map mergeCluster) (groupsOf rows)

/-! ### C1: the clustering is first-fit over cluster representatives -/

/-- The claim's clustering predicate in its own words: description
similarity at least 0.75 (exact rational threshold against the exact
difflib ratio), and, when both horas parse as times, a difference of at
most 120 minutes; an unparseable hora acts as a wildcard. -/
def claimQualifies (rep row : SicuRow) : Prop :=
  (3 / 4 : ℚ) ≤
      similarity (pyStrip row.descripcion) (pyStrip rep.descripcion) ∧
    ∀ t rt : Int, parse_time_to_minutes row.hora = some t →
      parse_time_to_minutes rep.hora = some rt → (t - rt).natAbs ≤ 120

/-- The claim's placement rule: the row joins the FIRST existing cluster
(in creation order) whose representative (head) qualifies; otherwise a
new cluster is appended at the end. -/
def firstFitInsert (cs : List (List SicuRow)) (row : SicuRow) :
    List (List SicuRow) :=
  match cs.findIdx? (fun cl => qualifies (cl.headD default) row) with
  | some i => cs.set i (cs.getD i [] ++ [row])
  | none => cs ++ [[row]]

/-- The grouping key as the claim words it: ALL FOUR components
lowercased and trimmed (the code lowercases only pais, categoria_sicu
and localizacion, leaving fecha case-sensitive). -/
def groupKeyClaim (r : SicuRow) : String × String × String × String :=
  (pyLower (pyStrip r.pais), pyLower (pyStrip r.categoria_sicu),
    pyLower (pyStrip r.fecha), pyLower (pyStrip r.localizacion))

/-- The deduplicator exactly as the claim describes it (fecha also
lowercased in the grouping key; everything else as in the code). -/
def dedupClaimedC1 (rows : List SicuRow) : List SicuRow :=
  concatMap (fun g => (buildClusters g).map mergeCluster)
    (groupsOfBy groupKeyClaim rows)

theorem length_pos_of_ne_empty {s : String} (h : ¬ s = "") :
    0 < s.length := by
  cases s with
  | mk l =>
    cases l with
    | nil => exact absurd rfl h
    | cons c cs => simp [String.length]

/-- The integer threshold test used by `simPass` is exactly the rational
comparison `3/4 ≤ 2M/(la+lb)` when the total length is positive. -/
theorem nat_thresh_iff (la lb M : Nat) (hpos : 0 < la + lb) :
    (3 * (la + lb) ≤ 8 * M) ↔
      (3 / 4 : ℚ) ≤ 2 * (M : ℚ) / ((la : ℚ) + (lb : ℚ)) := by
  have hq : (0 : ℚ) < (la : ℚ) + (lb : ℚ) := by exact_mod_cast hpos
  rw [le_div_iff₀ hq]
  constructor
  · intro h
    have h2 : (3 : ℚ) * ((la : ℚ) + (lb : ℚ)) ≤ 8 * (M : ℚ) := by
      exact_mod_cast h
    linarith
  · intro h
    have h2 : (3 : ℚ) * ((la : ℚ) + (lb : ℚ)) ≤ 8 * (M : ℚ) := by
      linarith
    exact_mod_cast h2

/-- `simPass` is the Boolean form of the rational similarity test. -/
theorem simPass_iff (a b : String) :
    simPass a b = true ↔ (3 / 4 : ℚ) ≤ similarity a b := by
  by_cases ha : pyLower (pyStrip a) = ""
  · simp [simPass, similarity, ha]
  · by_cases hb : pyLower (pyStrip b) = ""
    · simp [simPass, similarity, ha, hb]
    · have hpos : 0 < (pyLower (pyStrip a)).length +
          (pyLower (pyStrip b)).length :=
        Nat.add_pos_left (length_pos_of_ne_empty ha) _
      simp only [simPass, similarity]
      rw [if_neg (by simp [ha, hb]), if_neg (by simp [ha, hb]),
        decide_eq_true_eq]
      exact nat_thresh_iff _ _ _ hpos

/-- `qualifies` decides exactly the claim's predicate. -/
theorem qualifies_iff (rep row : SicuRow) :
    qualifies rep row = true ↔ claimQualifies rep row := by
  unfold claimQualifies
  simp only [qualifies]
  by_cases hs :
      simPass (pyStrip row.descripcion) (pyStrip rep.descripcion) = true
  · rw [if_neg (not_not_intro hs)]
    have h34 := (simPass_iff (pyStrip row.descripcion)
      (pyStrip rep.descripcion)).mp hs
    cases hrow : parse_time_to_minutes row.hora with
    | none =>
      cases hrep : parse_time_to_minutes rep.hora with
      | none =>
        simp only [hrow, hrep]
        constructor
        · intro _
          refine ⟨h34, ?_⟩
          intro t rt ht hrt
          exact Option.noConfusion ht
        · intro _
          trivial
      | some rt0 =>
        simp only [hrow, hrep]
        constructor
        · intro _
          refine ⟨h34, ?_⟩
          intro t rt ht hrt
          exact Option.noConfusion ht
        · intro _
          trivial
    | some t0 =>
      cases hrep : parse_time_to_minutes rep.hora with
      | none =>
        simp only [hrow, hrep]
        constructor
        · intro _
          refine ⟨h34, ?_⟩
          intro t rt ht hrt
          exact Option.noConfusion hrt
        · intro _
          trivial
      | some rt0 =>
        simp only [hrow, hrep, decide_eq_true_eq]
        constructor
        · intro h
          refine ⟨h34, ?_⟩
          intro t rt ht hrt
          injection ht with ht2
          injection hrt with hrt2
          rw [← ht2, ← hrt2]
          exact h
        · rintro ⟨_, hall⟩
          exact hall t0 rt0 rfl rfl
  · rw [if_pos hs]
    constructor
    · intro h
      exact Bool.noConfusion h
    · rintro ⟨h34, _⟩
      exact absurd ((simPass_iff _ _).mpr h34) hs

/-- The loop body of the deduplicator is the claim's first-fit rule. -/
theorem insertRow_eq_firstFit (cs : List (List SicuRow)) (row : SicuRow) :
    insertRow cs row = firstFitInsert cs row := by
  induction cs with
  | nil => simp [insertRow, firstFitInsert]
  | cons c cs ih =>
    by_cases hq : qualifies (c.headD default) row = true
    · simp only [insertRow, firstFitInsert, List.findIdx?_cons]
      rw [if_pos hq, if_pos hq]
      simp
    · have hq2 : qualifies (c.headD default) row = false := by
        cases h2 : qualifies (c.headD default) row with
        | false => rfl
        | true => exact absurd h2 hq
      have hidx : (c :: cs).findIdx?
          (fun cl => qualifies (cl.headD default) row) =
          (cs.findIdx? (fun cl => qualifies (cl.headD default) row)).map
            (fun i => i + 1) := by
        rw [List.findIdx?_cons, if_neg (by exact hq)]
        exact List.findIdx?_succ
      cases hfi : cs.findIdx? (fun cl => qualifies (cl.headD default) row)
        with
      | none =>
        simp only [insertRow, firstFitInsert]
        rw [hidx, hfi]
        simp only [Option.map_none', hq2, Bool.false_eq_true, if_false]
        rw [ih]
        simp only [firstFitInsert]
        rw [hfi]
        simp
      | some i =>
        simp only [insertRow, firstFitInsert]
        rw [hidx, hfi]
        simp only [Option.map_some', hq2, Bool.false_eq_true, if_false,
          List.set_cons_succ, List.getD_cons_succ]
        rw [ih]
        simp only [firstFitInsert]
        rw [hfi]

theorem foldl_insertRow_eq_firstFit :
    ∀ (l : List SicuRow) (init : List (List SicuRow)),
      l.foldl insertRow init = l.foldl firstFitInsert init := by
  intro l
  induction l with
  | nil => intro init; rfl
  | cons r rs ih =>
    intro init
    rw [List.foldl_cons, List.foldl_cons, insertRow_eq_firstFit, ih]

theorem concatMap_congrFun {α β : Type} (f g : α → List β)
    (h : ∀ x, f x = g x) : ∀ l : List α, concatMap f l = concatMap g l := by
  intro l
  induction l with
  | nil => rfl
  | cons a l ih => simp only [concatMap, h, ih]

/-- Claim C1 (amended): within each group the deduplicator is exactly
first-fit clustering — the loop's acceptance test decides the claim's
predicate (similarity at least 0.75 against the cluster's first row,
time gap at most 120 minutes when both horas parse, unparseable horas
acting as wildcards), each row joins the first qualifying cluster in
creation order (else opens a new one), and the whole deduplicator is
that clustering applied groupwise; the grouping key, however, compares
fecha case-sensitively (only trimmed), unlike pais, categoria_sicu and
localizacion, which are trimmed and lowercased. -/
theorem c1_amended_first_fit_clustering :
    (∀ rep row : SicuRow, qualifies rep row = true ↔ claimQualifies rep row) ∧
      (∀ (cs : List (List SicuRow)) (row : SicuRow),
        insertRow cs row = firstFitInsert cs row) ∧
      ∀ rows : List SicuRow,
        deduplicate_sicu_incidents rows =
          concatMap (fun g => (g.foldl firstFitInsert []).map mergeCluster)
            (groupsOfBy groupKey rows) := by
  refine ⟨qualifies_iff, insertRow_eq_firstFit, ?_⟩
  intro rows
  unfold deduplicate_sicu_incidents groupsOf
  refine concatMap_congrFun _ _ ?_ _
  intro g
  rw [buildClusters, foldl_insertRow_eq_firstFit]

def repW : SicuRow :=
  ⟨"Libia", "Conflicto Armado", "2025-01-05", "14:00", "Tripoli",
    "aeropuerto x", "", "", "", ""⟩

def rowW : SicuRow :=
  ⟨"Libia", "Conflicto Armado", "2025-01-05", "15:30", "Tripoli",
    "aeropuerto y", "", "", "", ""⟩

/-- Witness for C1: a concrete pair of rows (descriptions differing in
one character, horas 90 minutes apart) on which the loop's test accepts
and therefore the claim's rational-threshold predicate holds. -/
theorem c1_amended_first_fit_clustering_witness :
    qualifies repW rowW = true ∧ claimQualifies repW rowW :=
  ⟨by decide, (c1_amended_first_fit_clustering.1 repW rowW).mp (by decide)⟩

theorem groupsOfBy_nil (key : SicuRow → String × String × String × String) :
    groupsOfBy key [] = [] := by
  rw [groupsOfBy]

theorem groupsOfBy_cons_eval
    (key : SicuRow → String × String × String × String) (r : SicuRow)
    (rs g1 g2 : List SicuRow)
    (h1 : rs.filter (fun x => key x = key r) = g1)
    (h2 : rs.filter (fun x => ¬ (key x = key r)) = g2) :
    groupsOfBy key (r :: rs) = (r :: g1) :: groupsOfBy key g2 := by
  rw [groupsOfBy, h1, h2]

def rowFechaU : SicuRow := ⟨"p", "c", "A", "", "l", "dd", "", "", "", ""⟩

def rowFechaL : SicuRow := ⟨"p", "c", "a", "", "l", "dd", "", "", "", ""⟩

/-- Claim C1 (counterexample to the stated grouping key): two rows
identical except for the case of fecha ("A" vs "a") land in different
groups in the code (fecha is only trimmed, not lowercased), so both
survive deduplication; under the claim's all-four-lowercased key they
share a group and collapse to one row. -/
theorem c1_counterexample :
    deduplicate_sicu_incidents [rowFechaU, rowFechaL] =
        [rowFechaU, rowFechaL] ∧
      dedupClaimedC1 [rowFechaU, rowFechaL] = [rowFechaU] ∧
      deduplicate_sicu_incidents [rowFechaU, rowFechaL] ≠
        dedupClaimedC1 [rowFechaU, rowFechaL] := by
  have hg : groupsOfBy groupKey [rowFechaU, rowFechaL] =
      [[rowFechaU], [rowFechaL]] := by
    rw [groupsOfBy_cons_eval groupKey rowFechaU [rowFechaL] [] [rowFechaL]
        (by decide) (by decide),
      groupsOfBy_cons_eval groupKey rowFechaL [] [] [] (by decide)
        (by decide),
      groupsOfBy_nil]
  have hgc : groupsOfBy groupKeyClaim [rowFechaU, rowFechaL] =
      [[rowFechaU, rowFechaL]] := by
    rw [groupsOfBy_cons_eval groupKeyClaim rowFechaU [rowFechaL] [rowFechaL]
        [] (by decide) (by decide),
      groupsOfBy_nil]
  have hA : deduplicate_sicu_incidents [rowFechaU, rowFechaL] =
      [rowFechaU, rowFechaL] := by
    unfold deduplicate_sicu_incidents groupsOf
    rw [hg]
    decide
  have hB : dedupClaimedC1 [rowFechaU, rowFechaL] = [rowFechaU] := by
    unfold dedupClaimedC1
    rw [hgc]
    decide
  refine ⟨hA, hB, ?_⟩
  rw [hA, hB]
  decide

/-! ### C2: the deduplicator is idempotent -/

theorem headD_mem {α : Type} (d : α) :
    ∀ (c : List α), ¬ c = [] → c.headD d ∈ c
  | [], h => absurd rfl h
  | a :: t, _ => by simp

theorem headD_append {α : Type} (d : α) (c : List α) (y : α)
    (h : ¬ c = []) : (c ++ [y]).headD d = c.headD d := by
  cases c with
  | nil => exact absurd rfl h
  | cons a t => simp

theorem insertRow_ne_nil (cs : List (List SicuRow)) (y : SicuRow) :
    ¬ insertRow cs y = [] := by
  cases cs with
  | nil => simp [insertRow]
  | cons c cs =>
    simp only [insertRow]
    split <;> simp

theorem insertRow_members (P : SicuRow → Prop) :
    ∀ (cs : List (List SicuRow)) (y : SicuRow),
      (∀ c ∈ cs, ∀ x ∈ c, P x) → P y →
      ∀ c ∈ insertRow cs y, ∀ x ∈ c, P x := by
  intro cs
  induction cs with
  | nil =>
    intro y _ hy c hc x hx
    simp only [insertRow, List.mem_singleton] at hc
    subst hc
    simp only [List.mem_singleton] at hx
    subst hx
    exact hy
  | cons c0 cs ih =>
    intro y hall hy c hc x hx
    simp only [insertRow] at hc
    split at hc
    · rcases List.mem_cons.mp hc with h | h
      · subst h
        rcases List.mem_append.mp hx with h2 | h2
        · exact hall c0 (List.mem_cons_self _ _) x h2
        · simp only [List.mem_singleton] at h2
          subst h2
          exact hy
      · exact hall c (List.mem_cons_of_mem _ h) x hx
    · rcases List.mem_cons.mp hc with h | h
      · subst h
        exact hall c (List.mem_cons_self _ _) x hx
      · exact ih y (fun d hd => hall d (List.mem_cons_of_mem _ hd)) hy c h x
          hx

theorem insertRow_nonempty (cs : List (List SicuRow)) (y : SicuRow)
    (h : ∀ c ∈ cs, ¬ c = []) : ∀ c ∈ insertRow cs y, ¬ c = [] := by
  induction cs with
  | nil =>
    intro c hc
    simp only [insertRow, List.mem_singleton] at hc
    subst hc
    simp
  | cons c0 cs ih =>
    intro c hc
    simp only [insertRow] at hc
    split at hc
    · rcases List.mem_cons.mp hc with h2 | h2
      · subst h2
        simp
      · exact h c (List.mem_cons_of_mem _ h2)
    · rcases List.mem_cons.mp hc with h2 | h2
      · subst h2
        exact h c (List.mem_cons_self _ _)
      · exact ih (fun d hd => h d (List.mem_cons_of_mem _ hd)) c h2

theorem insertRow_heads :
    ∀ (cs : List (List SicuRow)) (y : SicuRow) (d : List SicuRow),
      d ∈ insertRow cs y →
      (∃ c ∈ cs, d.headD default = c.headD default) ∨
        d.headD default = y := by
  intro cs
  induction cs with
  | nil =>
    intro y d hd
    simp only [insertRow, List.mem_singleton] at hd
    subst hd
    right
    rfl
  | cons c0 cs ih =>
    intro y d hd
    simp only [insertRow] at hd
    split at hd
    · rcases List.mem_cons.mp hd with h | h
      · subst h
        cases c0 with
        | nil =>
          right
          rfl
        | cons a t =>
          left
          exact ⟨a :: t, List.mem_cons_self _ _, by simp⟩
      · left
        exact ⟨d, List.mem_cons_of_mem _ h, rfl⟩
    · rcases List.mem_cons.mp hd with h | h
      · subst h
        left
        exact ⟨d, List.mem_cons_self _ _, rfl⟩
      · rcases ih y d h with ⟨c, hc, he⟩ | he
        · exact Or.inl ⟨c, List.mem_cons_of_mem _ hc, he⟩
        · exact Or.inr he

/-- Cluster heads never change and a new cluster's head failed the test
against every older head, so the heads stay pairwise non-qualifying. -/
theorem insertRow_pairwise :
    ∀ (cs : List (List SicuRow)) (y : SicuRow),
      (∀ c ∈ cs, ¬ c = []) →
      List.Pairwise
        (fun c d => qualifies (c.headD default) (d.headD default) = false)
        cs →
      List.Pairwise
        (fun c d => qualifies (c.headD default) (d.headD default) = false)
        (insertRow cs y) := by
  intro cs
  induction cs with
  | nil =>
    intro y _ _
    simp only [insertRow]
    exact List.pairwise_singleton _ _
  | cons c0 cs ih =>
    intro y hne hp
    rcases List.pairwise_cons.mp hp with ⟨h0, hp2⟩
    simp only [insertRow]
    split
    · refine List.pairwise_cons.mpr ⟨?_, hp2⟩
      intro d hd
      rw [headD_append _ c0 y (hne c0 (List.mem_cons_self _ _))]
      exact h0 d hd
    · rename_i hq
      have hq2 : qualifies (c0.headD default) y = false := by
        cases h2 : qualifies (c0.headD default) y with
        | false => rfl
        | true => exact absurd h2 hq
      refine List.pairwise_cons.mpr ⟨?_, ?_⟩
      · intro d hd
        rcases insertRow_heads cs y d hd with ⟨c, hc, he⟩ | he
        · rw [he]
          exact h0 c hc
        · rw [he]
          exact hq2
      · exact ih y (fun d hd => hne d (List.mem_cons_of_mem _ hd)) hp2

/-- All three clustering invariants carried through the fold: clusters
stay nonempty, heads stay pairwise non-qualifying, and members come from
the initial clusters or the processed rows. -/
theorem buildClusters_inv (P : SicuRow → Prop) :
    ∀ (l : List SicuRow) (cs : List (List SicuRow)),
      (∀ c ∈ cs, ¬ c = []) →
      List.Pairwise
        (fun c d => qualifies (c.headD default) (d.headD default) = false)
        cs →
      (∀ c ∈ cs, ∀ x ∈ c, P x) →
      (∀ y ∈ l, P y) →
      (∀ c ∈ l.foldl insertRow cs, ¬ c = []) ∧
        List.Pairwise
          (fun c d => qualifies (c.headD default) (d.headD default) = false)
          (l.foldl insertRow cs) ∧
        (∀ c ∈ l.foldl insertRow cs, ∀ x ∈ c, P x) := by
  intro l
  induction l with
  | nil =>
    intro cs h1 h2 h3 _
    exact ⟨h1, h2, h3⟩
  | cons y l ih =>
    intro cs h1 h2 h3 h4
    rw [List.foldl_cons]
    exact ih (insertRow cs y) (insertRow_nonempty cs y h1)
      (insertRow_pairwise cs y h1 h2)
      (insertRow_members P cs y h3 (h4 y (List.mem_cons_self _ _)))
      (fun z hz => h4 z (List.mem_cons_of_mem _ hz))

theorem foldl_insertRow_ne_nil :
    ∀ (l : List SicuRow) (cs : List (List SicuRow)), ¬ cs = [] →
      ¬ l.foldl insertRow cs = [] := by
  intro l
  induction l with
  | nil => intro cs h; exact h
  | cons y l ih =>
    intro cs _
    rw [List.foldl_cons]
    exact ih (insertRow cs y) (insertRow_ne_nil cs y)

theorem buildClusters_ne_nil (l : List SicuRow) (h : ¬ l = []) :
    ¬ buildClusters l = [] := by
  cases l with
  | nil => exact absurd rfl h
  | cons x xs =>
    show ¬ (x :: xs).foldl insertRow [] = []
    rw [List.foldl_cons]
    exact foldl_insertRow_ne_nil xs (insertRow [] x) (insertRow_ne_nil [] x)

/-- Merging only rewrites fuente_URL, lat and lon: the grouping key, the
description and the hora of the merged row are those of the cluster's
first row. -/
theorem mergeCluster_head (c : List SicuRow) (hne : ¬ c = []) :
    groupKey (mergeCluster c) = groupKey (c.headD default) ∧
      (mergeCluster c).descripcion = (c.headD default).descripcion ∧
      (mergeCluster c).hora = (c.headD default).hora := by
  match c with
  | [] => exact absurd rfl hne
  | [r] => exact ⟨rfl, rfl, rfl⟩
  | r :: r2 :: rest =>
    simp only [mergeCluster, List.headD_cons]
    repeat' split
    all_goals exact ⟨rfl, rfl, rfl⟩

/-- The acceptance test reads only the descripcion and hora fields of
its two arguments. -/
theorem qualifies_congr (a a2 b b2 : SicuRow)
    (h1 : a.descripcion = a2.descripcion) (h2 : a.hora = a2.hora)
    (h3 : b.descripcion = b2.descripcion) (h4 : b.hora = b2.hora) :
    qualifies a b = qualifies a2 b2 := by
  simp only [qualifies, h1, h2, h3, h4]

theorem insertRow_all_fail :
    ∀ (pre : List SicuRow) (y : SicuRow),
      (∀ x ∈ pre, qualifies x y = false) →
      insertRow (pre.map (fun r => [r])) y =
        (pre ++ [y]).map (fun r => [r]) := by
  intro pre
  induction pre with
  | nil =>
    intro y _
    rfl
  | cons p ps ih =>
    intro y h
    simp only [List.map_cons, insertRow, List.headD_cons,
      h p (List.mem_cons_self _ _), Bool.false_eq_true, if_false,
      List.cons_append]
    rw [ih y (fun x hx => h x (List.mem_cons_of_mem _ hx))]

theorem foldl_insert_singletons :
    ∀ (l pre : List SicuRow),
      (∀ x ∈ pre, ∀ y ∈ l, qualifies x y = false) →
      List.Pairwise (fun x y => qualifies x y = false) l →
      l.foldl insertRow (pre.map (fun r => [r])) =
        (pre ++ l).map (fun r => [r]) := by
  intro l
  induction l with
  | nil =>
    intro pre _ _
    simp
  | cons y ys ih =>
    intro pre hpre hp
    rcases List.pairwise_cons.mp hp with ⟨hy, hp2⟩
    rw [List.foldl_cons,
      insertRow_all_fail pre y
        (fun x hx => hpre x hx y (List.mem_cons_self _ _)),
      ih (pre ++ [y]) ?_ hp2]
    · simp
    · intro x hx z hz
      rcases List.mem_append.mp hx with h | h
      · exact hpre x h z (List.mem_cons_of_mem _ hz)
      · simp only [List.mem_singleton] at h
        subst h
        exact hy z hz

theorem buildClusters_singletons (l : List SicuRow)
    (hp : List.Pairwise (fun x y => qualifies x y = false) l) :
    buildClusters l = l.map (fun r => [r]) := by
  have h := foldl_insert_singletons l [] (by intro x hx; cases hx) hp
  simpa using h

theorem map_merge_singletons (l : List SicuRow) :
    (l.map (fun r => [r])).map mergeCluster = l := by
  induction l with
  | nil => rfl
  | cons a l ih =>
    simp only [List.map_cons, ih]
    rfl

/-- Processing of one group: cluster it, merge every cluster. -/
def procG (g : List SicuRow) : List SicuRow :=
  (buildClusters g).map mergeCluster

theorem deduplicate_eq_procG (rows : List SicuRow) :
    deduplicate_sicu_incidents rows =
      concatMap procG (groupsOfBy groupKey rows) := rfl

theorem concatMap_mem {α β : Type} (f : α → List β) :
    ∀ (l : List α) (x : β), x ∈ concatMap f l → ∃ a ∈ l, x ∈ f a := by
  intro l
  induction l with
  | nil =>
    intro x hx
    cases hx
  | cons a l ih =>
    intro x hx
    simp only [concatMap] at hx
    rcases List.mem_append.mp hx with h | h
    · exact ⟨a, List.mem_cons_self _ _, h⟩
    · rcases ih x h with ⟨b, hb, hxb⟩
      exact ⟨b, List.mem_cons_of_mem _ hb, hxb⟩

theorem concatMap_map {α β γ : Type} (f : α → β) (g : β → List γ) :
    ∀ l : List α, concatMap g (l.map f) = concatMap (fun x => g (f x)) l := by
  intro l
  induction l with
  | nil => rfl
  | cons a l ih => simp only [List.map_cons, concatMap, ih]

theorem concatMap_congr_mem {α β : Type} (f g : α → List β) :
    ∀ l : List α, (∀ x ∈ l, f x = g x) →
      concatMap f l = concatMap g l := by
  intro l
  induction l with
  | nil =>
    intro _
    rfl
  | cons a l ih =>
    intro h
    simp only [concatMap, h a (List.mem_cons_self _ _),
      ih (fun x hx => h x (List.mem_cons_of_mem _ hx))]

/-- Processing a group keeps it nonempty, keeps every output row on the
group's key, and leaves the outputs pairwise non-qualifying (each merged
row carries its cluster head's descripcion and hora). -/
theorem procG_props (g : List SicuRow) (hne : ¬ g = [])
    (k : String × String × String × String)
    (hk : ∀ x ∈ g, groupKey x = k) :
    (¬ procG g = []) ∧ (∀ x ∈ procG g, groupKey x = k) ∧
      List.Pairwise (fun x y => qualifies x y = false) (procG g) := by
  obtain ⟨hne2, hp, hmem⟩ :=
    buildClusters_inv (fun x => groupKey x = k) g []
      (by intro c hc; cases hc) List.Pairwise.nil
      (by intro c hc; cases hc) hk
  refine ⟨?_, ?_, ?_⟩
  · simp only [procG]
    intro h
    exact buildClusters_ne_nil g hne (List.map_eq_nil_iff.mp h)
  · intro x hx
    rcases List.mem_map.mp hx with ⟨c, hc, he⟩
    have hcne := hne2 c hc
    rw [← he, (mergeCluster_head c hcne).1]
    exact hmem c hc (c.headD default) (headD_mem default c hcne)
  · simp only [procG]
    rw [List.pairwise_map]
    refine hp.imp_of_mem ?_
    intro c d hc hd hfail
    have hcne := hne2 c hc
    have hdne := hne2 d hd
    rw [qualifies_congr (mergeCluster c) (c.headD default)
      (mergeCluster d) (d.headD default)
      (mergeCluster_head c hcne).2.1 (mergeCluster_head c hcne).2.2
      (mergeCluster_head d hdne).2.1 (mergeCluster_head d hdne).2.2]
    exact hfail

/-- A pairwise non-qualifying list is a fixed point of the per-group
processing: every cluster is a singleton and merging is the identity. -/
theorem procG_fix (l : List SicuRow)
    (hp : List.Pairwise (fun x y => qualifies x y = false) l) :
    procG l = l := by
  simp only [procG, buildClusters_singletons l hp, map_merge_singletons]

theorem groupsOfBy_cons_eq
    (key : SicuRow → String × String × String × String) (r : SicuRow)
    (rs : List SicuRow) :
    groupsOfBy key (r :: rs) =
      (r :: rs.filter (fun x => key x = key r)) ::
        groupsOfBy key (rs.filter (fun x => ¬ (key x = key r))) := by
  rw [groupsOfBy]

def joinL (bs : List (List SicuRow)) : List SicuRow :=
  concatMap (fun b => b) bs

/-- Re-grouping a concatenation of nonempty constant-key blocks whose
keys are pairwise distinct returns exactly those blocks. -/
theorem groupsOf_blocks :
    ∀ bs : List (List SicuRow),
      (∀ b ∈ bs, (¬ b = []) ∧
        ∀ x ∈ b, groupKey x = groupKey (b.headD default)) →
      List.Pairwise
        (fun b b2 =>
          ¬ groupKey (b.headD default) = groupKey (b2.headD default)) bs →
      groupsOfBy groupKey (joinL bs) = bs := by
  intro bs
  induction bs with
  | nil =>
    intro _ _
    exact groupsOfBy_nil groupKey
  | cons b bs ih =>
    intro hcond hp
    rcases List.pairwise_cons.mp hp with ⟨hdistinct, hp2⟩
    obtain ⟨hbne, hbconst⟩ := hcond b (List.mem_cons_self _ _)
    cases hb : b with
    | nil => exact absurd hb hbne
    | cons r b2 =>
      subst hb
      have hkey : ∀ x ∈ r :: b2, groupKey x = groupKey r := by
        intro x hx
        have := hbconst x hx
        rwa [List.headD_cons] at this
      have hout : ∀ a ∈ joinL bs, ¬ groupKey a = groupKey r := by
        intro a ha hcontra
        rcases concatMap_mem (fun x => x) bs a ha with ⟨b3, hb3, hab3⟩
        obtain ⟨_, hb3const⟩ := hcond b3 (List.mem_cons_of_mem _ hb3)
        have h1 := hb3const a hab3
        have h2 := hdistinct b3 hb3
        rw [List.headD_cons] at h2
        exact h2 (hcontra.symm.trans h1)
      have hjoin : joinL ((r :: b2) :: bs) = r :: (b2 ++ joinL bs) := by
        simp only [joinL, concatMap, List.cons_append]
      rw [hjoin,
        groupsOfBy_cons_eval groupKey r (b2 ++ joinL bs) b2 (joinL bs)
          ?_ ?_,
        ih (fun b3 hb3 => hcond b3 (List.mem_cons_of_mem _ hb3)) hp2]
      · rw [List.filter_append]
        rw [List.filter_eq_self.mpr
          (fun a ha => decide_eq_true
            (hkey a (List.mem_cons_of_mem _ ha)))]
        rw [List.filter_eq_nil_iff.mpr
          (fun a ha h => hout a ha (of_decide_eq_true h))]
        exact List.append_nil b2
      · rw [List.filter_append]
        rw [List.filter_eq_nil_iff.mpr
          (fun a ha h =>
            (of_decide_eq_true h) (hkey a (List.mem_cons_of_mem _ ha)))]
        rw [List.filter_eq_self.mpr
          (fun a ha => decide_eq_true (hout a ha))]
        exact List.nil_append _

/-- The groups produced by the grouping pass are nonempty, drawn from
the input, constant on the grouping key, and carry pairwise distinct
keys (first-appearance order). -/
theorem groupsOf_props :
    ∀ (n : Nat) (l : List SicuRow), l.length ≤ n →
      (∀ g ∈ groupsOfBy groupKey l, (¬ g = []) ∧
        ∀ x ∈ g, x ∈ l ∧ groupKey x = groupKey (g.headD default)) ∧
        List.Pairwise
          (fun g g2 =>
            ¬ groupKey (g.headD default) = groupKey (g2.headD default))
          (groupsOfBy groupKey l) := by
  intro n
  induction n with
  | zero =>
    intro l hl
    have : l = [] := List.length_eq_zero.mp (Nat.le_zero.mp hl)
    subst this
    rw [groupsOfBy_nil]
    exact ⟨fun g hg => absurd hg (by simp), List.Pairwise.nil⟩
  | succ n ih =>
    intro l hl
    cases l with
    | nil =>
      rw [groupsOfBy_nil]
      exact ⟨fun g hg => absurd hg (by simp), List.Pairwise.nil⟩
    | cons r rs =>
      have hlen : (rs.filter
          (fun x => ¬ (groupKey x = groupKey r))).length ≤ n := by
        have h1 := List.length_filter_le
          (fun x => decide (¬ (groupKey x = groupKey r))) rs
        have h2 : rs.length ≤ n := by
          simpa using Nat.le_of_succ_le_succ hl
        omega
      obtain ⟨ih1, ih2⟩ := ih _ hlen
      rw [groupsOfBy_cons_eq]
      constructor
      · intro g hg
        rcases List.mem_cons.mp hg with h | h
        · subst h
          refine ⟨by simp, ?_⟩
          intro x hx
          rw [List.headD_cons]
          rcases List.mem_cons.mp hx with h2 | h2
          · subst h2
            exact ⟨List.mem_cons_self _ _, rfl⟩
          · rcases List.mem_filter.mp h2 with ⟨hmem, hkey⟩
            exact ⟨List.mem_cons_of_mem _ hmem, of_decide_eq_true hkey⟩
        · obtain ⟨hne, hmem⟩ := ih1 g h
          refine ⟨hne, ?_⟩
          intro x hx
          obtain ⟨hxin, hxkey⟩ := hmem x hx
          rcases List.mem_filter.mp hxin with ⟨hmem2, _⟩
          exact ⟨List.mem_cons_of_mem _ hmem2, hxkey⟩
      · refine List.pairwise_cons.mpr ⟨?_, ih2⟩
        intro g hg
        rw [List.headD_cons]
        obtain ⟨hne, hmem⟩ := ih1 g hg
        obtain ⟨hxin, hxkey⟩ := hmem (g.headD default)
          (headD_mem default g hne)
        rcases List.mem_filter.mp hxin with ⟨_, hkeyne⟩
        intro hcontra
        exact (of_decide_eq_true hkeyne) (hxkey ▸ hcontra.symm)

/-- Claim C2: applying the SICU deduplicator twice gives the same result
as applying it once. Each output row keeps its group's key and its
cluster head's descripcion and hora, so re-grouping reproduces exactly
the per-group output blocks, within which no two rows qualify against
each other; the second pass therefore makes every cluster a singleton
and merging is the identity. -/
theorem c2_dedup_idempotent (rows : List SicuRow) :
    deduplicate_sicu_incidents (deduplicate_sicu_incidents rows) =
      deduplicate_sicu_incidents rows := by
  obtain ⟨hg1, hg2⟩ := groupsOf_props rows.length rows (Nat.le_refl _)
  rw [deduplicate_eq_procG rows, deduplicate_eq_procG]
  have hbprops : ∀ g ∈ groupsOfBy groupKey rows,
      (¬ procG g = []) ∧
        (∀ x ∈ procG g, groupKey x = groupKey (g.headD default)) ∧
        List.Pairwise (fun x y => qualifies x y = false) (procG g) := by
    intro g hg
    obtain ⟨hne, hmem⟩ := hg1 g hg
    exact procG_props g hne (groupKey (g.headD default))
      (fun x hx => (hmem x hx).2)
  have hemb : concatMap procG (groupsOfBy groupKey rows) =
      joinL ((groupsOfBy groupKey rows).map procG) := by
    rw [joinL, concatMap_map]
  have hcond : ∀ b ∈ (groupsOfBy groupKey rows).map procG,
      (¬ b = []) ∧ ∀ x ∈ b, groupKey x = groupKey (b.headD default) := by
    intro b hb
    rcases List.mem_map.mp hb with ⟨g, hg, he⟩
    obtain ⟨hne, hconst, _⟩ := hbprops g hg
    subst he
    refine ⟨hne, ?_⟩
    intro x hx
    exact (hconst x hx).trans
      (hconst _ (headD_mem default _ hne)).symm
  have hpair : List.Pairwise
      (fun b b2 =>
        ¬ groupKey (b.headD default) = groupKey (b2.headD default))
      ((groupsOfBy groupKey rows).map procG) := by
    rw [List.pairwise_map]
    refine hg2.imp_of_mem ?_
    intro g g2 hg hgm2 hne hcontra
    obtain ⟨hne1, hconst1, _⟩ := hbprops g hg
    obtain ⟨hne2, hconst2, _⟩ := hbprops g2 hgm2
    have e1 := hconst1 _ (headD_mem default _ hne1)
    have e2 := hconst2 _ (headD_mem default _ hne2)
    exact hne ((e1.symm.trans hcontra).trans e2)
  rw [hemb, groupsOf_blocks _ hcond hpair, concatMap_map, ← hemb]
  refine concatMap_congr_mem _ _ _ ?_
  intro g hg
  obtain ⟨_, _, hpw⟩ := hbprops g hg
  exact procG_fix (procG g) hpw
